import Mathlib

/-
Verification development for the sandboxed mini-app loader/executor
(ProjectSandbox.vue).  The definitions below are a shallow embedding of the
component's source: the URL resolver, the document transformer
(cloneNodeTree / transferAttributes), the instrumented scope built inside
injectHtml, the script executor, and the watch / loadProject / unmount
orchestration.  Asynchronous behaviour is modelled as a small-step machine
whose commands are the component's suspension points (the entry fetch, the
per-top-level-node clone that performs script-src fetches, timer/listener
firings, descriptor observations and unmount).
-/

namespace Sandbox

/- ---------------------------------------------------------------- -/
/- URL resolver (resolveUrl / isExternal / normaliseSrcSet)          -/
/- ---------------------------------------------------------------- -/

/-- startsWith computed on the character list (kernel-evaluable). -/
def beginsWithCh : List Char → List Char → Bool
  | _, [] => true
  | [], _ :: _ => false
  | c :: cs, p :: ps => c == p && beginsWithCh cs ps

/-- String.startsWith, computed on the character lists. -/
def strStarts (s pre : String) : Bool := beginsWithCh s.data pre.data

/-- Splitting a character list on a separator character. -/
def splitCh (sep : Char) : List Char → List (List Char)
  | [] => [[]]
  | c :: rest =>
    match splitCh sep rest with
    | [] => [[]]
    | g :: gs => if c == sep then [] :: g :: gs else (c :: g) :: gs

/-- String.splitOn for a one-character separator. -/
def strSplitCh (sep : Char) (s : String) : List String :=
  (splitCh sep s.data).map String.mk

/-- Splitting a character list on a character predicate. -/
def splitPredCh (p : Char → Bool) : List Char → List (List Char)
  | [] => [[]]
  | c :: rest =>
    match splitPredCh p rest with
    | [] => [[]]
    | g :: gs => if p c then [] :: g :: gs else (c :: g) :: gs

/-- String.split on whitespace. -/
def strSplitWs (s : String) : List String :=
  (splitPredCh (fun c => c.isWhitespace) s.data).map String.mk

/-- String.trim, computed on the character list. -/
def strTrim (s : String) : String :=
  String.mk (((s.data.dropWhile (fun c => c.isWhitespace)).reverse.dropWhile
    (fun c => c.isWhitespace)).reverse)

/-- String.toLower, computed on the character list. -/
def strLower (s : String) : String := String.mk (s.data.map Char.toLower)

/-- String.toUpper, computed on the character list. -/
def strUpper (s : String) : String := String.mk (s.data.map Char.toUpper)

/-- Leftmost non-overlapping replacement over a character list, with fuel
bounded by the list length. -/
def replaceFuel (pat rep : List Char) : Nat → List Char → List Char
  | 0, l => l
  | _ + 1, [] => []
  | fuel + 1, c :: rest =>
    if beginsWithCh (c :: rest) pat then
      rep ++ replaceFuel pat rep fuel ((c :: rest).drop pat.length)
    else c :: replaceFuel pat rep fuel rest

/-- String.replace (all occurrences) for a non-empty pattern. -/
def strReplace (s pat rep : String) : String :=
  if pat.data.isEmpty then s
  else String.mk (replaceFuel pat.data rep.data s.data.length s.data)

/-- Character class for the first character of a URI scheme, from the
regex in isExternal: a letter (the regex has the i flag). -/
def isSchemeStart (c : Char) : Bool := c.isAlpha

/-- Character class for subsequent scheme characters in the regex
a-z, 0-9, plus, minus, dot (case-insensitive). -/
def isSchemeChar (c : Char) : Bool :=
  c.isAlpha || c.isDigit || c == '+' || c == '-' || c == '.'

/-- Scans the tail of a candidate scheme: scheme characters then a colon. -/
def hasSchemeTail : List Char → Bool
  | [] => false
  | c :: rest => if c == ':' then true else if isSchemeChar c then hasSchemeTail rest else false

/-- Whether the value matches the anchored scheme alternative of the regex. -/
def hasScheme (s : String) : Bool :=
  match s.data with
  | [] => false
  | c :: rest => isSchemeStart c && hasSchemeTail rest

/-- isExternal from the source: a URI scheme, protocol-relative slashes, or
a data: payload. -/
def isExternal (value : String) : Bool :=
  hasScheme value || strStarts value "//" || strStarts value "data:"

/-- Splits a character list at the first occurrence of a separator; the
second component is none when the separator does not occur. -/
def breakAt (sep : Char) : List Char → List Char × Option (List Char)
  | [] => ([], none)
  | c :: rest =>
    if c == sep then ([], some rest)
    else
      let p := breakAt sep rest
      (c :: p.1, p.2)

/-- A relative reference split into path part, optional query and optional
fragment, the way the WHATWG URL parser cuts a same-origin-relative value. -/
structure RefParts where
  pathPart : String
  query : Option String
  fragment : Option String
deriving Repr, DecidableEq

/-- Cuts a value at the first hash for the fragment and then at the first
question mark for the query. -/
def splitRef (value : String) : RefParts :=
  let h := breakAt '#' value.data
  let q := breakAt '?' h.1
  ⟨String.mk q.1, q.2.map String.mk, h.2.map String.mk⟩

/-- Base URL for resolution.  The component builds it from the entry point
and the page origin, so only the absolute path matters for the values the
resolver rewrites (same-origin references). -/
structure BaseUrl where
  path : String
deriving Repr, DecidableEq

/-- WHATWG path shortening applied to a merged segment list: single-dot
segments vanish, double-dot segments pop, and a trailing dot segment keeps
the trailing slash. -/
def dotSegLoop (acc : List String) : List String → List String
  | [] => acc.reverse
  | seg :: rest =>
    if seg == "." then
      match rest with
      | [] => acc.reverse ++ [""]
      | _ => dotSegLoop acc rest
    else if seg == ".." then
      match rest with
      | [] => acc.tail.reverse ++ [""]
      | _ => dotSegLoop acc.tail rest
    else dotSegLoop (seg :: acc) rest

/-- Segments of an absolute path (the leading slash removed). -/
def pathSegments (p : String) : List String :=
  strSplitCh '/' (if strStarts p "/" then p.drop 1 else p)

/-- Resolution of a relative path against an absolute base path: a rooted
reference replaces the base path, otherwise the reference is appended to
the base directory, and dot segments are removed. -/
def resolvePath (base : String) (r : String) : String :=
  let merged :=
    if strStarts r "/" then strSplitCh '/' (r.drop 1)
    else (pathSegments base).dropLast ++ strSplitCh '/' r
  "/" ++ String.intercalate "/" (dotSegLoop [] merged)

/-- Serialization of the search component: empty queries serialize to the
empty string, as URL.search does. -/
def serializeQuery : Option String → String
  | none => ""
  | some q => if q == "" then "" else "?" ++ q

/-- Serialization of the hash component: empty fragments serialize to the
empty string, as URL.hash does. -/
def serializeFragment : Option String → String
  | none => ""
  | some f => if f == "" then "" else "#" ++ f

/-- The non-pass-through branch of resolveUrl: resolve against the base and
re-serialize as pathname plus search plus hash (host and scheme stripped). -/
def resolveAgainstBase (value : String) (baseUrl : BaseUrl) : String :=
  let parts := splitRef value
  let pathname :=
    if parts.pathPart == "" then baseUrl.path
    else resolvePath baseUrl.path parts.pathPart
  pathname ++ serializeQuery parts.query ++ serializeFragment parts.fragment

/-- resolveUrl from the source: empty, fragment-only and external values
pass through unchanged; every other value is resolved against the base URL
and re-serialized as pathname plus search plus hash. -/
def resolveUrl (value : String) (baseUrl : BaseUrl) : String :=
  if value == "" || strStarts value "#" || isExternal value then value
  else resolveAgainstBase value baseUrl

/-- normaliseSrcSet from the source: split on commas, resolve the URL token
of each candidate, keep the first descriptor token, drop empty candidates,
rejoin with a comma and a space. -/
def normaliseSrcSet (value : String) (baseUrl : BaseUrl) : String :=
  String.intercalate ", "
    (((strSplitCh ',' value).map (fun candidate =>
      let parts := (strSplitWs (strTrim candidate)).filter (· != "")
      match parts with
      | [] => ""
      | [u] => resolveUrl u baseUrl
      | u :: d :: _ => resolveUrl u baseUrl ++ " " ++ d)).filter (· != ""))

/-- The base URL of the spec's attribute-rewrite example. -/
def demoBase : BaseUrl := ⟨"/projects/demo/"⟩

/- ---------------------------------------------------------------- -/
/- Document transformer (cloneNodeTree / transferAttributes)         -/
/- ---------------------------------------------------------------- -/

/-- A parsed HTML node: a text node, a non-element non-text node (comment
and the like), or an element with its attribute list (names lowercased by
the parser) and its children. -/
inductive HNode where
  | text (content : String)
  | comment (content : String)
  | elem (tag : String) (attrs : List (String × String)) (children : List HNode)

/-- A node of the transformed output tree (built with createElement /
createTextNode and appendChild). -/
inductive CNode where
  | text (content : String)
  | elem (tag : String) (attrs : List (String × String)) (children : List CNode)

/-- getAttribute on an attribute list: the first binding of the name. -/
def getAttr (attrs : List (String × String)) (name : String) : Option String :=
  (attrs.find? (fun p => p.1 == name)).map (·.2)

/-- setAttribute on an attribute list: overwrite an existing binding or
append a new one. -/
def setAttribute (attrs : List (String × String)) (name value : String) :
    List (String × String) :=
  if attrs.any (fun p => p.1 == name) then
    attrs.map (fun p => if p.1 == name then (name, value) else p)
  else attrs ++ [(name, value)]

/-- The fixed tag-to-URL-attribute table of transferAttributes. -/
def urlAttributeMap (tagName : String) : Option (List String) :=
  if tagName == "IMG" then some ["src", "srcset"]
  else if tagName == "SOURCE" then some ["src", "srcset"]
  else if tagName == "SCRIPT" then some ["src"]
  else if tagName == "LINK" then some ["href"]
  else if tagName == "A" then some ["href"]
  else if tagName == "USE" then some ["href", "xlink:href"]
  else if tagName == "VIDEO" then some ["poster"]
  else if tagName == "AUDIO" then some ["src"]
  else none

/-- transferAttributes from the source: copy every attribute except the
four URL-bearing names, then resolve and set each applicable candidate
attribute that is present and non-empty. -/
def transferAttributes (sourceTagName : String)
    (sourceAttrs : List (String × String)) (baseUrl : BaseUrl) :
    List (String × String) :=
  let copied := sourceAttrs.foldl
    (fun acc p =>
      if p.1 == "src" || p.1 == "href" || p.1 == "xlink:href" || p.1 == "srcset" then acc
      else setAttribute acc p.1 p.2) []
  match urlAttributeMap sourceTagName with
  | none => copied
  | some candidates =>
    candidates.foldl
      (fun acc attrName =>
        match getAttr sourceAttrs attrName with
        | none => acc
        | some raw =>
          if raw == "" then acc
          else if attrName == "srcset" then
            setAttribute acc attrName (normaliseSrcSet raw baseUrl)
          else setAttribute acc attrName (resolveUrl raw baseUrl))
      copied

/-- The recognized executable-JS script type strings. -/
def JS_MIME_TYPES : List String := ["", "text/javascript", "application/javascript"]

/-- A script extracted by the transformer, in document encounter order. -/
structure ScriptUnit where
  code : String
deriving Repr, DecidableEq

mutual

/-- textContent of a node: the concatenation of its descendant text nodes. -/
def textContentN : HNode → String
  | .text s => s
  | .comment _ => ""
  | .elem _ _ cs => textContentC cs

/-- textContent of a child list. -/
def textContentC : List HNode → String
  | [] => ""
  | c :: rest => textContentN c ++ textContentC rest

end

mutual

/-- cloneNodeTree from the source.  The fetch environment maps a resolved
script URL to its response body, none standing for a non-ok response;
a failed script fetch fails the whole transform with a descriptive error.
Returns the optional cloned node and the scripts extracted from this
subtree in encounter order. -/
def cloneNodeTree (env : String → Option String) (baseUrl : BaseUrl) :
    HNode → Except String (Option CNode × List ScriptUnit)
  | .text content => .ok (some (.text content), [])
  | .comment _ => .ok (none, [])
  | .elem tag attrs children =>
    let tagName := strUpper tag
    if tagName == "SCRIPT" then
      let type := strLower (strTrim ((getAttr attrs "type").getD ""))
      if type != "" && !(JS_MIME_TYPES.contains type) then .ok (none, [])
      else
        let src := (getAttr attrs "src").getD ""
        if src != "" then
          match env (resolveUrl src baseUrl) with
          | some body => .ok (none, [⟨body⟩])
          | none => .error "Unable to load project script"
        else .ok (none, [⟨textContentC children⟩])
    else if tagName == "LINK" && getAttr attrs "rel" == some "stylesheet" then
      .ok (some (.elem "link"
        (setAttribute (transferAttributes tagName attrs baseUrl) "rel" "stylesheet") []), [])
    else
      match cloneChildren env baseUrl children with
      | .error e => .error e
      | .ok p =>
        .ok (some (.elem (strLower tag) (transferAttributes tagName attrs baseUrl) p.1), p.2)

/-- The child loop of cloneNodeTree: clone each child in order, append the
non-null results, concatenate the extracted scripts in order. -/
def cloneChildren (env : String → Option String) (baseUrl : BaseUrl) :
    List HNode → Except String (List CNode × List ScriptUnit)
  | [] => .ok ([], [])
  | c :: rest =>
    match cloneNodeTree env baseUrl c with
    | .error e => .error e
    | .ok p =>
      match cloneChildren env baseUrl rest with
      | .error e => .error e
      | .ok q => .ok ((p.1.toList) ++ q.1, p.2 ++ q.2)

end

/- ---------------------------------------------------------------- -/
/- Scope instrumentation and script execution                        -/
/- ---------------------------------------------------------------- -/

/-- The explicit parameters of the compiled runner, from
new Function with sandboxRoot, window and document, in that order. -/
def runnerParams : List String := ["sandboxRoot", "window", "document"]

/-- The prelude prepended to every script body before compilation; it is
the empty string in the source. -/
def instrumentationPrelude : String := ""

/-- Whether a bare identifier inside an executed script resolves to an
instrumented value: only the runner's parameters shadow the real global
scope (the empty prelude binds nothing else), so a bare identifier that is
not a parameter reaches the real global object. -/
def bareResolvesInstrumented (n : String) : Bool := runnerParams.contains n

/-- The textual normalization applied to each script before compilation. -/
def prepareCode (code : String) : String :=
  instrumentationPrelude ++
    strReplace code "document.currentScript.getRootNode()" "sandboxRoot"

/-- A listener target: the window or the document. -/
inductive LTarget | win | doc
deriving Repr, DecidableEq

/-- How an executed script reached an API: through a bare identifier,
through a property of the window parameter, or through a property of the
document parameter. -/
inductive JsRef | bare | viaWindow | viaDocument
deriving Repr, DecidableEq

/-- The primitive steps an executed script (or a fired callback) can take,
restricted to the operations the instrumented scope intercepts plus a
shared recorder write and a thrown error. -/
inductive SAct where
  | setTimeout (ref : JsRef) (cb : Nat) (delay : Nat)
  | setInterval (ref : JsRef) (cb : Nat) (delay : Nat)
  | requestFrame (ref : JsRef) (cb : Nat)
  | addListener (ref : JsRef) (ev : String) (cb : Nat)
  | newResizeObserver (ref : JsRef) (cb : Nat)
  | record (v : Nat)
  | throwErr
deriving Repr, DecidableEq

/-- A release action appended to a root's ledger, mirroring the cleanup
closures the instrumented scope pushes. -/
inductive Release where
  | clearTimer (h : Nat)
  | cancelFrame (h : Nat)
  | removeListener (t : LTarget) (ev : String) (cb : Nat)
  | disconnectObserver (h : Nat)
deriving Repr, DecidableEq

/-- A scheduled timer: setTimeout when repeating is false, setInterval when
it is true. -/
structure TimerRec where
  handle : Nat
  cb : Nat
  repeating : Bool
  alive : Bool
deriving Repr, DecidableEq

/-- A scheduled animation frame. -/
structure FrameRec where
  handle : Nat
  cb : Nat
  alive : Bool
deriving Repr, DecidableEq

/-- A registered event listener. -/
structure ListenerRec where
  target : LTarget
  ev : String
  cb : Nat
  alive : Bool
deriving Repr, DecidableEq

/-- A constructed resize observer. -/
structure ObserverRec where
  handle : Nat
  cb : Nat
  connected : Bool
deriving Repr, DecidableEq

/-- The value bound to this inside a runner invocation. -/
inductive ThisVal | rootRef | globalObj | undef
deriving Repr, DecidableEq

/-- Strict-mode this binding: a strict callee receives the this argument
unchanged, a sloppy one would coerce undefined to the global object. -/
def coerceThis (strict : Bool) (v : ThisVal) : ThisVal :=
  if strict then v else match v with | .undef => .globalObj | x => x

/-- One compiled-runner invocation, as performed by the executor:
runner.call with the shadow root as both the this argument and the
sandboxRoot parameter, under the prepended strict directive. -/
structure InvRec where
  thisV : ThisVal
  sandboxRootV : ThisVal
  strict : Bool
deriving Repr, DecidableEq

/-- The ambient resources and observable side effects outside the
component: live timers, frames, listeners and observers, the shared
recorder the spec's tests write into, the runner invocation log, and the
count of console-logged script failures. -/
structure World where
  nextHandle : Nat := 0
  timers : List TimerRec := []
  frames : List FrameRec := []
  listeners : List ListenerRec := []
  observers : List ObserverRec := []
  recorder : List Nat := []
  invocations : List InvRec := []
  consoleErrors : Nat := 0
deriving Repr, DecidableEq

/-- The real setTimeout / setInterval: allocate a handle and register a
live timer. -/
def addTimer (w : World) (cb : Nat) (repeating : Bool) : World × Nat :=
  ({ w with nextHandle := w.nextHandle + 1,
            timers := w.timers ++ [⟨w.nextHandle, cb, repeating, true⟩] }, w.nextHandle)

/-- The real requestAnimationFrame: allocate a handle and register a live
frame. -/
def addFrame (w : World) (cb : Nat) : World × Nat :=
  ({ w with nextHandle := w.nextHandle + 1,
            frames := w.frames ++ [⟨w.nextHandle, cb, true⟩] }, w.nextHandle)

/-- The real addEventListener on the given target. -/
def addListenerW (w : World) (t : LTarget) (ev : String) (cb : Nat) : World :=
  { w with listeners := w.listeners ++ [⟨t, ev, cb, true⟩] }

/-- The real ResizeObserver construction. -/
def addObserver (w : World) (cb : Nat) : World × Nat :=
  ({ w with nextHandle := w.nextHandle + 1,
            observers := w.observers ++ [⟨w.nextHandle, cb, true⟩] }, w.nextHandle)

/-- Applying one release action to the world: clearTimeout / clearInterval,
cancelAnimationFrame, removeEventListener, observer disconnect. -/
def applyRelease (w : World) : Release → World
  | .clearTimer h =>
    { w with timers := w.timers.map (fun t => if t.handle == h then { t with alive := false } else t) }
  | .cancelFrame h =>
    { w with frames := w.frames.map (fun f => if f.handle == h then { f with alive := false } else f) }
  | .removeListener t ev cb =>
    { w with listeners := w.listeners.map (fun l =>
        if l.target == t && l.ev == ev && l.cb == cb then { l with alive := false } else l) }
  | .disconnectObserver h =>
    { w with observers := w.observers.map (fun o => if o.handle == h then { o with connected := false } else o) }

/-- One script action against the instrumented scope wired to the given
ledger.  A call through the window parameter hits the proxy wrappers that
perform the real operation and push a matching release; a call through the
document parameter is wrapped only for addEventListener (its other
intercepted names are undefined on the document, so calling them throws);
a bare identifier resolves through the runner's parameter list and falls
through to the real, untracked global operation.  Returns the new world,
the new ledger, and whether the action threw. -/
def execAct (w : World) (led : List Release) : SAct → World × List Release × Bool
  | .setTimeout ref cb _ =>
    match ref with
    | .bare =>
      if bareResolvesInstrumented "setTimeout" then
        let p := addTimer w cb false
        (p.1, led ++ [.clearTimer p.2], false)
      else
        let p := addTimer w cb false
        (p.1, led, false)
    | .viaWindow =>
      let p := addTimer w cb false
      (p.1, led ++ [.clearTimer p.2], false)
    | .viaDocument => (w, led, true)
  | .setInterval ref cb _ =>
    match ref with
    | .bare =>
      if bareResolvesInstrumented "setInterval" then
        let p := addTimer w cb true
        (p.1, led ++ [.clearTimer p.2], false)
      else
        let p := addTimer w cb true
        (p.1, led, false)
    | .viaWindow =>
      let p := addTimer w cb true
      (p.1, led ++ [.clearTimer p.2], false)
    | .viaDocument => (w, led, true)
  | .requestFrame ref cb =>
    match ref with
    | .bare =>
      if bareResolvesInstrumented "requestAnimationFrame" then
        let p := addFrame w cb
        (p.1, led ++ [.cancelFrame p.2], false)
      else
        let p := addFrame w cb
        (p.1, led, false)
    | .viaWindow =>
      let p := addFrame w cb
      (p.1, led ++ [.cancelFrame p.2], false)
    | .viaDocument => (w, led, true)
  | .addListener ref ev cb =>
    match ref with
    | .bare =>
      if bareResolvesInstrumented "addEventListener" then
        (addListenerW w .win ev cb, led ++ [.removeListener .win ev cb], false)
      else (addListenerW w .win ev cb, led, false)
    | .viaWindow =>
      (addListenerW w .win ev cb, led ++ [.removeListener .win ev cb], false)
    | .viaDocument =>
      (addListenerW w .doc ev cb, led ++ [.removeListener .doc ev cb], false)
  | .newResizeObserver ref cb =>
    match ref with
    | .bare =>
      if bareResolvesInstrumented "ResizeObserver" then
        let p := addObserver w cb
        (p.1, led ++ [.disconnectObserver p.2], false)
      else
        let p := addObserver w cb
        (p.1, led, false)
    | .viaWindow =>
      let p := addObserver w cb
      (p.1, led ++ [.disconnectObserver p.2], false)
    | .viaDocument => (w, led, true)
  | .record v => ({ w with recorder := w.recorder ++ [v] }, led, false)
  | .throwErr => (w, led, true)

/-- Runs a list of script actions in order, stopping at the first thrown
error; the Boolean reports whether a throw happened. -/
def execActs (w : World) (led : List Release) : List SAct → World × List Release × Bool
  | [] => (w, led, false)
  | a :: rest =>
    let r := execAct w led a
    if r.2.2 then r else execActs r.1 r.2.1 rest

/-- One extracted script executed by the executor: log the strict
runner.call invocation (this argument and sandboxRoot parameter both the
shadow root), run its actions, and on a thrown error log it to the console
and continue. -/
def runScript (sem : String → List SAct) (w : World) (led : List Release)
    (code : String) : World × List Release :=
  let w1 := { w with invocations :=
    w.invocations ++ [⟨coerceThis true ThisVal.rootRef, ThisVal.rootRef, true⟩] }
  let r := execActs w1 led (sem (prepareCode code))
  (if r.2.2 then { r.1 with consoleErrors := r.1.consoleErrors + 1 } else r.1, r.2.1)

/-- The executor's forEach over the extracted scripts: strictly in
extraction order, each script returning before the next starts, failures
isolated per script. -/
def runScriptList (sem : String → List SAct) (w : World) (led : List Release) :
    List ScriptUnit → World × List Release
  | [] => (w, led)
  | su :: rest =>
    let r := runScript sem w led su.code
    runScriptList sem r.1 r.2 rest

/- ---------------------------------------------------------------- -/
/- Loader orchestration (watch / loadProject / injectHtml / unmount) -/
/- ---------------------------------------------------------------- -/

/-- An emitted lifecycle payload: slug, entry point, ticket, optional error
message, and the empty marker of the no-entry-point case. -/
structure Payload where
  slug : String
  entryPoint : String
  ticket : Nat
  errMsg : Option String := none
  empty : Bool := false
deriving Repr, DecidableEq

/-- A lifecycle event emitted to the host. -/
inductive Ev where
  | loading (p : Payload)
  | loaded (p : Payload)
  | errorEv (p : Payload)
deriving Repr, DecidableEq

/-- The shadow root: its children and the cleanup ledger stored on it. -/
structure Shadow where
  children : List CNode := []
  ledger : List Release := []

/-- The identity of one load attempt: its ticket, descriptor, and abort
controller. -/
structure TaskCore where
  tkt : Nat
  slug : String
  entry : String
  ctrl : Nat
deriving Repr, DecidableEq

/-- Where a load attempt is suspended: at the entry-document fetch, or
inside the per-node clone loop at a node whose subtree needs script-src
fetches (the remaining top-level nodes and the scripts collected so far
are carried along). -/
inductive TaskPC where
  | awaitEntry
  | awaitClone (node : HNode) (rest : List HNode) (bucket : List ScriptUnit)

/-- An in-flight load attempt. -/
structure Task where
  core : TaskCore
  pc : TaskPC

/-- The component state: the mutable ticket counter, emitted events, the
host's shadow root (none until first attachShadow), the ambient world,
in-flight loads, the active abort controller, the set of aborted
controllers, the number of entry fetches started, and the unmounted flag. -/
structure Comp where
  ticket : Nat := 0
  events : List Ev := []
  shadow : Option Shadow := none
  world : World := {}
  tasks : List Task := []
  activeCtrl : Option Nat := none
  abortedCtrls : List Nat := []
  nextCtrl : Nat := 0
  fetchCount : Nat := 0
  unmounted : Bool := false

/-- The machine's environment: the HTML parser (body child nodes), the
un-signalled asset fetcher used for script src, the meaning of a script
source as primitive actions, and the meaning of a callback identifier. -/
structure Env where
  parseHtml : String → List HNode
  fetchAsset : String → Option String
  sem : String → List SAct
  cbSem : Nat → List SAct

/-- The base URL of a load: the entry point resolved against the page
origin (the app always uses same-origin entry paths). -/
def entryBaseUrl (entry : String) : BaseUrl :=
  ⟨resolvePath "/" (splitRef entry).pathPart⟩

/-- Appends one emitted event. -/
def emitEv (c : Comp) (e : Ev) : Comp := { c with events := c.events ++ [e] }

/-- clearShadow from the source: removes every child of the shadow root if
one exists; the ledger stored on the root is not touched. -/
def clearShadowChildren (c : Comp) : Comp :=
  { c with shadow := c.shadow.map (fun sh => ⟨[], sh.ledger⟩) }

/-- Drops the load attempt with the given ticket from the task list. -/
def removeTask (c : Comp) (tkt : Nat) : Comp :=
  { c with tasks := c.tasks.filter (fun t => t.core.tkt != tkt) }

/-- The payload shared by the loading and loaded events of one load. -/
def payloadBase (t : TaskCore) : Payload := ⟨t.slug, t.entry, t.tkt, none, false⟩

/-- The catch block of loadProject for a non-abort error: only when the
ticket is still current, clear the shadow root and emit the error event. -/
def loadCatch (c : Comp) (t : TaskCore) (msg : String) : Comp :=
  if c.ticket == t.tkt then
    emitEv (clearShadowChildren c) (.errorEv ⟨t.slug, t.entry, t.tkt, some msg, false⟩)
  else c

/-- Appends a cloned node, when present, to the shadow root's children. -/
def appendChildOpt (c : Comp) (oc : Option CNode) : Comp :=
  { c with shadow := c.shadow.map (fun sh => ⟨sh.children ++ oc.toList, sh.ledger⟩) }

mutual

/-- Whether cloning this node performs a script-src fetch somewhere in its
subtree (the clone loop suspends exactly there). -/
def nodeNeedsAssetFetch : HNode → Bool
  | .text _ => false
  | .comment _ => false
  | .elem tag attrs children =>
    let tagName := strUpper tag
    if tagName == "SCRIPT" then
      let type := strLower (strTrim ((getAttr attrs "type").getD ""))
      if type != "" && !(JS_MIME_TYPES.contains type) then false
      else ((getAttr attrs "src").getD "") != ""
    else if tagName == "LINK" && getAttr attrs "rel" == some "stylesheet" then false
    else childrenNeedFetch children

/-- Whether any node of the list needs a script-src fetch. -/
def childrenNeedFetch : List HNode → Bool
  | [] => false
  | c :: rest => nodeNeedsAssetFetch c || childrenNeedFetch rest

end

/-- The tail of injectHtml after the clone loop: run the collected scripts
in order against the instrumented scope wired to the root's ledger, then
(back in loadProject, with the ticket unchanged by the synchronous run)
emit the loaded event. -/
def finishInject (env : Env) (c : Comp) (t : TaskCore) (bucket : List ScriptUnit) : Comp :=
  let sh := c.shadow.getD ⟨[], []⟩
  let r := runScriptList env.sem c.world sh.ledger bucket
  let c1 := { c with world := r.1, shadow := some ⟨sh.children, r.2⟩ }
  emitEv c1 (.loaded (payloadBase t))

/-- The per-top-level-node loop of injectHtml: a ticket check at the head
of each iteration (and once more after the loop); a node whose clone needs
an asset fetch suspends the load there; otherwise the clone result is
appended synchronously; a clone error falls to the catch of loadProject. -/
def runNodes (env : Env) (t : TaskCore) (c : Comp) :
    List HNode → List ScriptUnit → Comp
  | remaining, bucket =>
    if c.ticket != t.tkt then c
    else
      match remaining with
      | [] => finishInject env c t bucket
      | node :: rest =>
        if nodeNeedsAssetFetch node then
          { c with tasks := c.tasks ++ [⟨t, .awaitClone node rest bucket⟩] }
        else
          match cloneNodeTree env.fetchAsset (entryBaseUrl t.entry) node with
          | .error msg => loadCatch c t msg
          | .ok p => runNodes env t (appendChildOpt c p.1) rest (bucket ++ p.2)

/-- The synchronous head of injectHtml, entered when the entry fetch and
body read resolve: with no container (unmounted) return silently;
otherwise parse, attach the shadow root if missing, drain the root's
ledger (every release invoked, list emptied), remove every child, and
enter the clone loop.  Note the drain and the clearing run before the
first ticket check of the loop. -/
def injectEntry (env : Env) (c : Comp) (t : TaskCore) (html : String) : Comp :=
  if c.unmounted then c
  else
    let nodes := env.parseHtml html
    let sh := c.shadow.getD ⟨[], []⟩
    let w := sh.ledger.foldl applyRelease c.world
    runNodes env t { c with world := w, shadow := some ⟨[], []⟩ } nodes []

/-- The outcome of the entry-document fetch. -/
inductive FetchRes where
  | ok (body : String)
  | httpErr (status : Nat)
deriving Repr, DecidableEq

/-- Resumption of a load suspended at the entry fetch: an aborted
controller rejects with AbortError and the catch returns silently; an ok
response enters injectHtml; a non-ok status throws the fetch error. -/
def stepResumeEntry (env : Env) (c : Comp) (tkt : Nat) (res : FetchRes) : Comp :=
  match c.tasks.find? (fun t => t.core.tkt == tkt) with
  | none => c
  | some task =>
    match task.pc with
    | .awaitEntry =>
      if (removeTask c tkt).abortedCtrls.contains task.core.ctrl then removeTask c tkt
      else
        match res with
        | .ok html => injectEntry env (removeTask c tkt) task.core html
        | .httpErr s =>
          loadCatch (removeTask c tkt) task.core
            ("Unable to load project asset (" ++ toString s ++ ")")
    | _ => c

/-- Resumption of a load suspended inside the clone loop: the script-src
fetches carry no abort signal, so the clone always completes; its result
node is appended before the next ticket check, exactly as the source
appends after the await; a fetch failure throws into the catch. -/
def stepResumeClone (env : Env) (c : Comp) (tkt : Nat) : Comp :=
  match c.tasks.find? (fun t => t.core.tkt == tkt) with
  | none => c
  | some task =>
    match task.pc with
    | .awaitClone node rest bucket =>
      match cloneNodeTree env.fetchAsset (entryBaseUrl task.core.entry) node with
      | .error msg => loadCatch (removeTask c tkt) task.core msg
      | .ok p =>
        runNodes env task.core (appendChildOpt (removeTask c tkt) p.1) rest (bucket ++ p.2)
    | _ => c

/-- The missing-slug error message. -/
def missingSlugMsg : String := "Sandbox slug is missing. Cannot load project."

/-- The watch handler on a new descriptor: mint the next ticket; with no
slug clear the shadow and emit the error; with no entry point clear the
shadow and emit loaded with the empty marker; otherwise run loadProject:
abort the previous controller, make a fresh one, emit loading, start the
entry fetch. -/
def stepObserve (c : Comp) (slug entry : String) : Comp :=
  if c.unmounted then c
  else
    let tk := c.ticket + 1
    let c1 := { c with ticket := tk }
    if slug == "" then
      emitEv (clearShadowChildren c1) (.errorEv ⟨slug, entry, tk, some missingSlugMsg, false⟩)
    else if entry == "" then
      emitEv (clearShadowChildren c1) (.loaded ⟨slug, entry, tk, none, true⟩)
    else
      let c2 :=
        match c1.activeCtrl with
        | some a => { c1 with abortedCtrls := c1.abortedCtrls ++ [a] }
        | none => c1
      let ctrl := c2.nextCtrl
      let c3 := { c2 with nextCtrl := ctrl + 1, activeCtrl := some ctrl,
                          fetchCount := c2.fetchCount + 1 }
      let c4 := emitEv c3 (.loading ⟨slug, entry, tk, none, false⟩)
      { c4 with tasks := c4.tasks ++ [⟨⟨tk, slug, entry, ctrl⟩, .awaitEntry⟩] }

/-- onBeforeUnmount from the source: bump the ticket, clear the shadow
root's children, abort the active controller.  The ledger is NOT drained
here. -/
def stepUnmount (c : Comp) : Comp :=
  if c.unmounted then c
  else
    match c.activeCtrl with
    | some a =>
      { clearShadowChildren { c with ticket := c.ticket + 1 } with
          abortedCtrls := c.abortedCtrls ++ [a], activeCtrl := none, unmounted := true }
    | none =>
      { clearShadowChildren { c with ticket := c.ticket + 1 } with unmounted := true }

/-- Runs a fired callback: its closure carries the instrumented scope, so
its actions run against the ledger stored on the shadow root. -/
def runCallback (env : Env) (c : Comp) (cb : Nat) : Comp :=
  let r := execActs c.world (c.shadow.getD ⟨[], []⟩).ledger (env.cbSem cb)
  { c with world := r.1, shadow := c.shadow.map (fun sh => ⟨sh.children, r.2.1⟩) }

/-- A timer firing: a cleared timer does nothing; a live timeout dies and
runs its callback; a live interval stays and runs its callback. -/
def stepFireTimer (env : Env) (c : Comp) (h : Nat) : Comp :=
  match c.world.timers.find? (fun t => t.handle == h) with
  | none => c
  | some t =>
    if t.alive then
      let w := if t.repeating then c.world else applyRelease c.world (.clearTimer h)
      runCallback env { c with world := w } t.cb
    else c

/-- An animation frame firing: a cancelled frame does nothing; a live one
dies and runs its callback. -/
def stepFireFrame (env : Env) (c : Comp) (h : Nat) : Comp :=
  match c.world.frames.find? (fun f => f.handle == h) with
  | none => c
  | some f =>
    if f.alive then
      runCallback env { c with world := applyRelease c.world (.cancelFrame h) } f.cb
    else c

/-- An event dispatch: every live listener registered on the target for
the event runs in registration order. -/
def stepFireListener (env : Env) (c : Comp) (t : LTarget) (ev : String) : Comp :=
  (c.world.listeners.filter (fun l => l.target == t && l.ev == ev && l.alive)).foldl
    (fun acc l => runCallback env acc l.cb) c

/-- A scheduler command: one suspension-point resolution or external
stimulus of the cooperative single-threaded model. -/
inductive Cmd where
  | observe (slug entry : String)
  | resumeEntry (tkt : Nat) (res : FetchRes)
  | resumeClone (tkt : Nat)
  | fireTimer (h : Nat)
  | fireFrame (h : Nat)
  | fireListener (t : LTarget) (ev : String)
  | unmount

/-- One machine step. -/
def step (env : Env) (c : Comp) : Cmd → Comp
  | .observe slug entry => stepObserve c slug entry
  | .resumeEntry tkt res => stepResumeEntry env c tkt res
  | .resumeClone tkt => stepResumeClone env c tkt
  | .fireTimer h => stepFireTimer env c h
  | .fireFrame h => stepFireFrame env c h
  | .fireListener t ev => stepFireListener env c t ev
  | .unmount => stepUnmount c

/-- The freshly mounted component. -/
def initComp : Comp := {}

/-- Runs a whole scheduler trace from the freshly mounted component. -/
def runTrace (env : Env) (cmds : List Cmd) : Comp :=
  cmds.foldl (step env) initComp

/-- The children of the host's shadow root (empty before attachShadow). -/
def shadowChildren (c : Comp) : List CNode := (c.shadow.getD ⟨[], []⟩).children

/-- The cleanup ledger stored on the host's shadow root. -/
def shadowLedger (c : Comp) : List Release := (c.shadow.getD ⟨[], []⟩).ledger

/- ---------------------------------------------------------------- -/
/- Claim theorems                                                    -/
/- ---------------------------------------------------------------- -/

/-- Claim C9: resolveUrl returns the value unchanged when it is empty,
starts with a hash, carries a URI scheme, is protocol-relative, or is a
data: payload; every other value is resolved against the base URL and
re-serialized as path plus query plus fragment with host and scheme
stripped; in particular with base /projects/demo/, a/b.png resolves to
/projects/demo/a/b.png while an https: URL and a data: payload are
returned unchanged. -/
theorem resolveUrl_spec :
    (∀ b : BaseUrl, resolveUrl "" b = "") ∧
    (∀ (v : String) (b : BaseUrl), strStarts v "#" = true → resolveUrl v b = v) ∧
    (∀ (v : String) (b : BaseUrl), isExternal v = true → resolveUrl v b = v) ∧
    (∀ (v : String) (b : BaseUrl), v ≠ "" → strStarts v "#" = false →
      isExternal v = false → resolveUrl v b = resolveAgainstBase v b) ∧
    resolveUrl "a/b.png" demoBase = "/projects/demo/a/b.png" ∧
    resolveUrl "https://x.com/c.png" demoBase = "https://x.com/c.png" ∧
    resolveUrl "data:image/png;base64,AAAA" demoBase = "data:image/png;base64,AAAA" := by
  refine ⟨fun b => rfl, ?_, ?_, ?_, by decide, by decide, by decide⟩
  · intro v b h
    simp [resolveUrl, h]
  · intro v b h
    simp [resolveUrl, h]
  · intro v b h1 h2 h3
    have hb : (v == "") = false := by
      simp [h1]
    simp [resolveUrl, hb, h2, h3]

/-- Witness for resolveUrl_spec at concrete inputs. -/
theorem resolveUrl_spec_witness :
    resolveUrl "#top" demoBase = "#top" ∧
    resolveUrl "//cdn.example/x.png" demoBase = "//cdn.example/x.png" ∧
    resolveUrl "img/../a.png" demoBase = resolveAgainstBase "img/../a.png" demoBase :=
  ⟨resolveUrl_spec.2.1 "#top" demoBase (by decide),
   resolveUrl_spec.2.2.1 "//cdn.example/x.png" demoBase (by decide),
   resolveUrl_spec.2.2.2.1 "img/../a.png" demoBase (by decide) (by decide) (by decide)⟩

/-- Claim C7: a script element whose trimmed, lowercased type attribute is
non-empty and not a recognized executable-JS type yields no ScriptUnits
and no output node; and every script element, allowed or not, is itself
never inserted into the output tree; a child whose clone yields nothing
leaves the surrounding transform unchanged. -/
theorem script_type_filtering :
    (∀ (env : String → Option String) (b : BaseUrl) (tag : String)
        (attrs : List (String × String)) (children : List HNode),
      strUpper tag = "SCRIPT" →
      strLower (strTrim ((getAttr attrs "type").getD "")) ≠ "" →
      JS_MIME_TYPES.contains (strLower (strTrim ((getAttr attrs "type").getD ""))) = false →
      cloneNodeTree env b (.elem tag attrs children) = .ok (none, [])) ∧
    (∀ (env : String → Option String) (b : BaseUrl) (tag : String)
        (attrs : List (String × String)) (children : List HNode)
        (r : Option CNode × List ScriptUnit),
      strUpper tag = "SCRIPT" →
      cloneNodeTree env b (.elem tag attrs children) = .ok r → r.1 = none) ∧
    (∀ (env : String → Option String) (b : BaseUrl) (s : HNode) (rest : List HNode),
      cloneNodeTree env b s = .ok (none, []) →
      cloneChildren env b (s :: rest) = cloneChildren env b rest) := by
  refine ⟨?_, ?_, ?_⟩
  · intro env b tag attrs children htag htype hmime
    have hmem : strLower (strTrim ((getAttr attrs "type").getD "")) ∉ JS_MIME_TYPES := by
      simpa using hmime
    simp [cloneNodeTree, htag, htype, hmem]
  · intro env b tag attrs children r htag hok
    simp only [cloneNodeTree, htag] at hok
    simp only [beq_self_eq_true, if_true] at hok
    split at hok
    · cases hok; rfl
    · split at hok
      · split at hok
        · cases hok; rfl
        · cases hok
      · cases hok; rfl
  · intro env b s rest h
    rw [cloneChildren, h]
    cases cloneChildren env b rest <;> simp

mutual

/-- Encounter-order script extraction, stated from the spec's words: walk
the document's nodes depth-first in document order and collect each
allowed script's source, inline text or fetched src body alike, failing
when a src fetch fails. -/
def specScriptsN (env : String → Option String) (b : BaseUrl) :
    HNode → Except String (List String)
  | .text _ => .ok []
  | .comment _ => .ok []
  | .elem tag attrs children =>
    let tagName := strUpper tag
    if tagName == "SCRIPT" then
      let type := strLower (strTrim ((getAttr attrs "type").getD ""))
      if type != "" && !(JS_MIME_TYPES.contains type) then .ok []
      else
        let src := (getAttr attrs "src").getD ""
        if src != "" then
          match env (resolveUrl src b) with
          | some body => .ok [body]
          | none => .error "Unable to load project script"
        else .ok [textContentC children]
    else if tagName == "LINK" && getAttr attrs "rel" == some "stylesheet" then .ok []
    else specScriptsC env b children

/-- Encounter-order script extraction over a node list, spec side. -/
def specScriptsC (env : String → Option String) (b : BaseUrl) :
    List HNode → Except String (List String)
  | [] => .ok []
  | n :: rest =>
    match specScriptsN env b n with
    | .error e => .error e
    | .ok s1 =>
      match specScriptsC env b rest with
      | .error e => .error e
      | .ok s2 => .ok (s1 ++ s2)

end

mutual

/-- The transformer's script output agrees with the spec-side
encounter-order extraction, node case. -/
theorem specScriptsN_refines (env : String → Option String) (b : BaseUrl) :
    ∀ (n : HNode) (p : Option CNode × List ScriptUnit),
      cloneNodeTree env b n = .ok p →
      specScriptsN env b n = .ok (p.2.map ScriptUnit.code)
  | .text s, p, h => by
    simp only [cloneNodeTree] at h
    injection h with h
    subst h
    simp [specScriptsN]
  | .comment s, p, h => by
    simp only [cloneNodeTree] at h
    injection h with h
    subst h
    simp [specScriptsN]
  | .elem tag attrs children, p, h => by
    simp only [cloneNodeTree] at h
    simp only [specScriptsN]
    split at h
    next hscript =>
      rw [if_pos hscript]
      split at h
      next htype =>
        rw [if_pos htype]
        injection h with h
        subst h
        rfl
      next htype =>
        rw [if_neg htype]
        split at h
        next hsrc =>
          rw [if_pos hsrc]
          split at h
          next body henv =>
            injection h with h
            subst h
            simp
          next henv => cases h
        next hsrc =>
          rw [if_neg hsrc]
          injection h with h
          subst h
          rfl
    next hscript =>
      rw [if_neg hscript]
      split at h
      next hlink =>
        rw [if_pos hlink]
        injection h with h
        subst h
        rfl
      next hlink =>
        rw [if_neg hlink]
        split at h
        next e hc => cases h
        next q hc =>
          injection h with h
          subst h
          exact specScriptsC_refines env b children q hc

/-- The transformer's script output agrees with the spec-side
encounter-order extraction, list case. -/
theorem specScriptsC_refines (env : String → Option String) (b : BaseUrl) :
    ∀ (ns : List HNode) (p : List CNode × List ScriptUnit),
      cloneChildren env b ns = .ok p →
      specScriptsC env b ns = .ok (p.2.map ScriptUnit.code)
  | [], p, h => by
    simp only [cloneChildren] at h
    injection h with h
    subst h
    simp [specScriptsC]
  | n :: rest, p, h => by
    simp only [cloneChildren] at h
    split at h
    next e hn => cases h
    next q hn =>
      split at h
      next e hr => cases h
      next r hr =>
        injection h with h
        subst h
        have i1 := specScriptsN_refines env b n q hn
        have i2 := specScriptsC_refines env b rest r hr
        simp [specScriptsC, i1, i2]

end

/-- The bare identifier setTimeout is not a runner parameter. -/
theorem bare_setTimeout_false : bareResolvesInstrumented "setTimeout" = false := by decide

/-- The bare identifier setInterval is not a runner parameter. -/
theorem bare_setInterval_false : bareResolvesInstrumented "setInterval" = false := by decide

/-- The bare identifier requestAnimationFrame is not a runner parameter. -/
theorem bare_raf_false : bareResolvesInstrumented "requestAnimationFrame" = false := by decide

/-- The bare identifier addEventListener is not a runner parameter. -/
theorem bare_ael_false : bareResolvesInstrumented "addEventListener" = false := by decide

/-- The bare identifier ResizeObserver is not a runner parameter. -/
theorem bare_ro_false : bareResolvesInstrumented "ResizeObserver" = false := by decide

/-- Whether one script action throws when executed. -/
def actThrows : SAct → Bool
  | .setTimeout .viaDocument _ _ => true
  | .setInterval .viaDocument _ _ => true
  | .requestFrame .viaDocument _ => true
  | .newResizeObserver .viaDocument _ => true
  | .throwErr => true
  | _ => false

/-- The recorder values an action list writes before its first throw. -/
def recOf : List SAct → List Nat
  | [] => []
  | a :: rest =>
    if actThrows a then []
    else (match a with | .record v => [v] | _ => []) ++ recOf rest

/-- Whether executing an action list throws somewhere. -/
def throwsIn : List SAct → Bool
  | [] => false
  | a :: rest => actThrows a || throwsIn rest

/-- execAct reports a throw exactly for the throwing actions. -/
theorem execAct_throws (w : World) (led : List Release) (a : SAct) :
    (execAct w led a).2.2 = actThrows a := by
  cases a with
  | setTimeout ref cb d => cases ref <;> rfl
  | setInterval ref cb d => cases ref <;> rfl
  | requestFrame ref cb => cases ref <;> rfl
  | addListener ref ev cb => cases ref <;> rfl
  | newResizeObserver ref cb => cases ref <;> rfl
  | record v => rfl
  | throwErr => rfl

/-- execAct appends to the recorder exactly the record writes. -/
theorem execAct_recorder (w : World) (led : List Release) (a : SAct) :
    (execAct w led a).1.recorder =
      w.recorder ++
        (if actThrows a then [] else match a with | .record v => [v] | _ => []) := by
  cases a with
  | setTimeout ref cb d =>
    cases ref <;> simp [execAct, actThrows, addTimer, bare_setTimeout_false]
  | setInterval ref cb d =>
    cases ref <;> simp [execAct, actThrows, addTimer, bare_setInterval_false]
  | requestFrame ref cb =>
    cases ref <;> simp [execAct, actThrows, addFrame, bare_raf_false]
  | addListener ref ev cb =>
    cases ref <;> simp [execAct, actThrows, addListenerW, bare_ael_false]
  | newResizeObserver ref cb =>
    cases ref <;> simp [execAct, actThrows, addObserver, bare_ro_false]
  | record v => simp [execAct, actThrows]
  | throwErr => simp [execAct, actThrows]

/-- execActs writes to the recorder exactly the values of recOf. -/
theorem execActs_recorder (as : List SAct) :
    ∀ w led, (execActs w led as).1.recorder = w.recorder ++ recOf as := by
  induction as with
  | nil => intro w led; simp [execActs, recOf]
  | cons a rest ih =>
    intro w led
    simp only [execActs, recOf]
    by_cases h : actThrows a
    · rw [execAct_throws w led a, if_pos h]
      have := execAct_recorder w led a
      rw [if_pos h] at this
      simp [this, h]
    · rw [execAct_throws w led a, if_neg (by simpa using h)]
      have hrec := execAct_recorder w led a
      rw [if_neg h] at hrec
      simp only [h, if_false]
      rw [ih, hrec]
      simp [List.append_assoc]

/-- execActs reports a throw exactly when throwsIn holds. -/
theorem execActs_throws (as : List SAct) :
    ∀ w led, (execActs w led as).2.2 = throwsIn as := by
  induction as with
  | nil => intro w led; simp [execActs, throwsIn]
  | cons a rest ih =>
    intro w led
    simp only [execActs, throwsIn]
    by_cases h : actThrows a
    · rw [execAct_throws w led a, if_pos h]
      simp [execAct_throws, h]
    · rw [execAct_throws w led a, if_neg (by simpa using h)]
      simp [h, ih]

/-- execAct never changes the invocation log. -/
theorem execAct_invocations (w : World) (led : List Release) (a : SAct) :
    (execAct w led a).1.invocations = w.invocations := by
  cases a with
  | setTimeout ref cb d =>
    cases ref <;> simp [execAct, addTimer, bare_setTimeout_false]
  | setInterval ref cb d =>
    cases ref <;> simp [execAct, addTimer, bare_setInterval_false]
  | requestFrame ref cb =>
    cases ref <;> simp [execAct, addFrame, bare_raf_false]
  | addListener ref ev cb =>
    cases ref <;> simp [execAct, addListenerW, bare_ael_false]
  | newResizeObserver ref cb =>
    cases ref <;> simp [execAct, addObserver, bare_ro_false]
  | record v => simp [execAct]
  | throwErr => simp [execAct]

/-- execActs never changes the invocation log. -/
theorem execActs_invocations (as : List SAct) :
    ∀ w led, (execActs w led as).1.invocations = w.invocations := by
  induction as with
  | nil => intro w led; simp [execActs]
  | cons a rest ih =>
    intro w led
    simp only [execActs]
    by_cases h : (execAct w led a).2.2
    · simp [h, execAct_invocations]
    · simp [h, ih, execAct_invocations]

/-- execAct never changes the console error count. -/
theorem execAct_consoleErrors (w : World) (led : List Release) (a : SAct) :
    (execAct w led a).1.consoleErrors = w.consoleErrors := by
  cases a with
  | setTimeout ref cb d =>
    cases ref <;> simp [execAct, addTimer, bare_setTimeout_false]
  | setInterval ref cb d =>
    cases ref <;> simp [execAct, addTimer, bare_setInterval_false]
  | requestFrame ref cb =>
    cases ref <;> simp [execAct, addFrame, bare_raf_false]
  | addListener ref ev cb =>
    cases ref <;> simp [execAct, addListenerW, bare_ael_false]
  | newResizeObserver ref cb =>
    cases ref <;> simp [execAct, addObserver, bare_ro_false]
  | record v => simp [execAct]
  | throwErr => simp [execAct]

/-- execActs never changes the console error count. -/
theorem execActs_consoleErrors (as : List SAct) :
    ∀ w led, (execActs w led as).1.consoleErrors = w.consoleErrors := by
  induction as with
  | nil => intro w led; simp [execActs]
  | cons a rest ih =>
    intro w led
    simp only [execActs]
    by_cases h : (execAct w led a).2.2
    · simp [h, execAct_consoleErrors]
    · simp [h, ih, execAct_consoleErrors]

/-- One script run appends its recorder writes. -/
theorem runScript_recorder (sem : String → List SAct) (w : World)
    (led : List Release) (code : String) :
    (runScript sem w led code).1.recorder =
      w.recorder ++ recOf (sem (prepareCode code)) := by
  simp only [runScript]
  split <;> simp [execActs_recorder]

/-- One script run appends exactly one runner invocation. -/
theorem runScript_invocations (sem : String → List SAct) (w : World)
    (led : List Release) (code : String) :
    (runScript sem w led code).1.invocations =
      w.invocations ++ [⟨ThisVal.rootRef, ThisVal.rootRef, true⟩] := by
  simp only [runScript]
  split <;> simp [execActs_invocations, coerceThis]

/-- One script run bumps the console error count exactly when it throws. -/
theorem runScript_consoleErrors (sem : String → List SAct) (w : World)
    (led : List Release) (code : String) :
    (runScript sem w led code).1.consoleErrors =
      w.consoleErrors + (if throwsIn (sem (prepareCode code)) then 1 else 0) := by
  simp only [runScript]
  by_cases h : throwsIn (sem (prepareCode code))
  · rw [if_pos h]
    have ht := execActs_throws (sem (prepareCode code))
    simp only [ht, h, if_true]
    simp [execActs_consoleErrors]
  · rw [if_neg h]
    have ht := execActs_throws (sem (prepareCode code))
    simp only [ht, h, if_false]
    simp [execActs_consoleErrors]

/-- The executor appends per-script recorder writes in list order. -/
theorem runScriptList_recorder (sem : String → List SAct) :
    ∀ (scripts : List ScriptUnit) (w : World) (led : List Release),
      (runScriptList sem w led scripts).1.recorder =
        w.recorder ++ (scripts.map (fun su => recOf (sem (prepareCode su.code)))).flatten := by
  intro scripts
  induction scripts with
  | nil => intro w led; simp [runScriptList]
  | cons su rest ih =>
    intro w led
    simp only [runScriptList, List.map_cons, List.flatten]
    rw [ih, runScript_recorder]
    simp [List.append_assoc]

/-- The executor invokes every script in the list, in order, regardless of
earlier throws. -/
theorem runScriptList_invocations (sem : String → List SAct) :
    ∀ (scripts : List ScriptUnit) (w : World) (led : List Release),
      (runScriptList sem w led scripts).1.invocations =
        w.invocations ++ scripts.map (fun _ => (⟨ThisVal.rootRef, ThisVal.rootRef, true⟩ : InvRec)) := by
  intro scripts
  induction scripts with
  | nil => intro w led; simp [runScriptList]
  | cons su rest ih =>
    intro w led
    simp only [runScriptList, List.map_cons]
    rw [ih, runScript_invocations]
    simp [List.append_assoc]

/-- The executor logs one console error per throwing script. -/
theorem runScriptList_consoleErrors (sem : String → List SAct) :
    ∀ (scripts : List ScriptUnit) (w : World) (led : List Release),
      (runScriptList sem w led scripts).1.consoleErrors =
        w.consoleErrors +
          (scripts.filter (fun su => throwsIn (sem (prepareCode su.code)))).length := by
  intro scripts
  induction scripts with
  | nil => intro w led; simp [runScriptList]
  | cons su rest ih =>
    intro w led
    simp only [runScriptList]
    rw [ih, runScript_consoleErrors]
    by_cases h : throwsIn (sem (prepareCode su.code))
    · simp [List.filter, h]
      omega
    · simp [List.filter, h]

/-- Claim C6: ScriptUnits are appended in document encounter order, inline
and src-based alike (the transformer's script output equals the spec-side
encounter-order extraction), and the executor runs them strictly in that
order, each script returning before the next starts, so recorder side
effects appear as the in-order concatenation of the per-script writes. -/
theorem script_order_spec :
    (∀ (env : String → Option String) (b : BaseUrl) (ns : List HNode)
        (p : List CNode × List ScriptUnit),
      cloneChildren env b ns = .ok p →
      specScriptsC env b ns = .ok (p.2.map ScriptUnit.code)) ∧
    (∀ (sem : String → List SAct) (w : World) (led : List Release)
        (scripts : List ScriptUnit),
      (runScriptList sem w led scripts).1.recorder =
        w.recorder ++ (scripts.map (fun su => recOf (sem (prepareCode su.code)))).flatten) :=
  ⟨fun env b ns p h => specScriptsC_refines env b ns p h,
   fun sem w led scripts => runScriptList_recorder sem scripts w led⟩

/-- The fetch environment of the three-script example. -/
def c6env : String → Option String :=
  fun u => if u == "/projects/demo/s2.js" then some "beta" else none

/-- The three-script body of the spec's extraction-order example: inline,
then src-based, then inline. -/
def c6nodes : List HNode :=
  [.elem "script" [] [.text "alpha"],
   .elem "script" [("src", "s2.js")] [],
   .elem "script" [] [.text "gamma"]]

/-- The action semantics of the three-script example: each script writes
its index into the shared recorder. -/
def c6sem : String → List SAct :=
  fun code =>
    if code == "alpha" then [.record 1]
    else if code == "beta" then [.record 2]
    else if code == "gamma" then [.record 3]
    else []

/-- Witness for script_order_spec at the spec's three-script example. -/
theorem script_order_spec_witness :
    specScriptsC c6env demoBase c6nodes = .ok ["alpha", "beta", "gamma"] ∧
    (runScriptList c6sem {} [] [⟨"alpha"⟩, ⟨"beta"⟩, ⟨"gamma"⟩]).1.recorder = [1, 2, 3] := by
  constructor
  · have h := script_order_spec.1 c6env demoBase c6nodes
      ([], [⟨"alpha"⟩, ⟨"beta"⟩, ⟨"gamma"⟩]) rfl
    simpa using h
  · have h := script_order_spec.2 c6sem {} [] [⟨"alpha"⟩, ⟨"beta"⟩, ⟨"gamma"⟩]
    simpa using h

/-- Claim C5: an exception thrown during one extracted script is caught
and logged, every subsequent script in the list still runs and produces
its side effects, and the load still reaches loaded rather than error:
with three scripts the recorder keeps the first and third scripts' writes,
every script is invoked, one console error is logged per throwing script,
and the clone loop's tail still emits the loaded event for the current
ticket whatever the scripts did. -/
theorem script_failure_isolation :
    (∀ (sem : String → List SAct) (w : World) (led : List Release)
        (s1 s2 s3 : ScriptUnit),
      (runScriptList sem w led [s1, s2, s3]).1.recorder =
        w.recorder ++ recOf (sem (prepareCode s1.code)) ++
          recOf (sem (prepareCode s2.code)) ++ recOf (sem (prepareCode s3.code))) ∧
    (∀ (sem : String → List SAct) (w : World) (led : List Release)
        (scripts : List ScriptUnit),
      (runScriptList sem w led scripts).1.invocations.length =
        w.invocations.length + scripts.length) ∧
    (∀ (sem : String → List SAct) (w : World) (led : List Release)
        (scripts : List ScriptUnit),
      (runScriptList sem w led scripts).1.consoleErrors =
        w.consoleErrors +
          (scripts.filter (fun su => throwsIn (sem (prepareCode su.code)))).length) ∧
    (∀ (env : Env) (c : Comp) (t : TaskCore) (bucket : List ScriptUnit),
      c.ticket = t.tkt →
      (runNodes env t c [] bucket).events = c.events ++ [.loaded (payloadBase t)]) := by
  refine ⟨?_, ?_, ?_, ?_⟩
  · intro sem w led s1 s2 s3
    rw [runScriptList_recorder]
    simp [List.append_assoc]
  · intro sem w led scripts
    rw [runScriptList_invocations]
    simp
  · intro sem w led scripts
    exact runScriptList_consoleErrors sem scripts w led
  · intro env c t bucket h
    rw [runNodes]
    simp [h, finishInject, emitEv]

/-- The action semantics of the three-script failure example: the middle
script throws. -/
def c5sem : String → List SAct :=
  fun code =>
    if code == "one" then [.record 1]
    else if code == "two" then [.throwErr]
    else if code == "three" then [.record 3]
    else []

/-- A trivial machine environment for the failure-isolation witness. -/
def c5env : Env := ⟨fun _ => [], fun _ => none, c5sem, fun _ => []⟩

/-- Witness for script_failure_isolation: three scripts, the second
throws; the first and third writes land, one console error is logged, all
three run, and the clone-loop tail emits loaded. -/
theorem script_failure_isolation_witness :
    (runScriptList c5sem {} [] [⟨"one"⟩, ⟨"two"⟩, ⟨"three"⟩]).1.recorder = [1, 3] ∧
    (runScriptList c5sem {} [] [⟨"one"⟩, ⟨"two"⟩, ⟨"three"⟩]).1.consoleErrors = 1 ∧
    (runScriptList c5sem {} [] [⟨"one"⟩, ⟨"two"⟩, ⟨"three"⟩]).1.invocations.length = 3 ∧
    (runNodes c5env ⟨0, "s", "/e.html", 0⟩ initComp [] []).events =
      initComp.events ++ [.loaded (payloadBase ⟨0, "s", "/e.html", 0⟩)] := by
  refine ⟨?_, ?_, ?_, ?_⟩
  · rw [script_failure_isolation.1 c5sem {} [] ⟨"one"⟩ ⟨"two"⟩ ⟨"three"⟩]; rfl
  · rw [script_failure_isolation.2.2.1 c5sem {} [] [⟨"one"⟩, ⟨"two"⟩, ⟨"three"⟩]]; rfl
  · rw [script_failure_isolation.2.1 c5sem {} [] [⟨"one"⟩, ⟨"two"⟩, ⟨"three"⟩]]; rfl
  · exact script_failure_isolation.2.2.2 c5env initComp ⟨0, "s", "/e.html", 0⟩ [] rfl

/-- Claim C3 (the code contradicts its own integration guide): only calls
made through the instrumented window or document are wrapped with a ledger
entry.  A bare identifier such as setTimeout is not among the runner's
parameters (sandboxRoot, window, document, with an empty instrumentation
prelude), so a bare call reaches the real global: the real operation is
performed but nothing is appended to the ledger, while the same call
through the window parameter appends the matching release action. -/
theorem bare_calls_untracked :
    bareResolvesInstrumented "setTimeout" = false ∧
    bareResolvesInstrumented "setInterval" = false ∧
    bareResolvesInstrumented "requestAnimationFrame" = false ∧
    bareResolvesInstrumented "addEventListener" = false ∧
    bareResolvesInstrumented "ResizeObserver" = false ∧
    (∀ (w : World) (led : List Release) (cb d : Nat),
      execAct w led (.setTimeout .bare cb d) = ((addTimer w cb false).1, led, false)) ∧
    (∀ (w : World) (led : List Release) (cb d : Nat),
      execAct w led (.setTimeout .viaWindow cb d) =
        ((addTimer w cb false).1, led ++ [.clearTimer w.nextHandle], false)) ∧
    (∀ (w : World) (led : List Release) (cb d : Nat),
      execAct w led (.setInterval .bare cb d) = ((addTimer w cb true).1, led, false)) ∧
    (∀ (w : World) (led : List Release) (cb : Nat),
      execAct w led (.requestFrame .bare cb) = ((addFrame w cb).1, led, false)) ∧
    (∀ (w : World) (led : List Release) (ev : String) (cb : Nat),
      execAct w led (.addListener .bare ev cb) = (addListenerW w .win ev cb, led, false)) ∧
    (∀ (w : World) (led : List Release) (ev : String) (cb : Nat),
      execAct w led (.addListener .viaWindow ev cb) =
        (addListenerW w .win ev cb, led ++ [.removeListener .win ev cb], false)) ∧
    (∀ (w : World) (led : List Release) (ev : String) (cb : Nat),
      execAct w led (.addListener .viaDocument ev cb) =
        (addListenerW w .doc ev cb, led ++ [.removeListener .doc ev cb], false)) ∧
    (∀ (w : World) (led : List Release) (cb : Nat),
      execAct w led (.newResizeObserver .bare cb) = ((addObserver w cb).1, led, false)) ∧
    (∀ (w : World) (led : List Release) (cb : Nat),
      execAct w led (.newResizeObserver .viaWindow cb) =
        ((addObserver w cb).1, led ++ [.disconnectObserver w.nextHandle], false)) := by
  refine ⟨by decide, by decide, by decide, by decide, by decide,
    ?_, ?_, ?_, ?_, ?_, ?_, ?_, ?_, ?_⟩
  · intro w led cb d; simp [execAct, bare_setTimeout_false]
  · intro w led cb d; rfl
  · intro w led cb d; simp [execAct, bare_setInterval_false]
  · intro w led cb; simp [execAct, bare_raf_false]
  · intro w led ev cb; simp [execAct, bare_ael_false]
  · intro w led ev cb; rfl
  · intro w led ev cb; rfl
  · intro w led cb; simp [execAct, bare_ro_false]
  · intro w led cb; rfl

/-- The environment of the unmount counterexamples: one inline script that
registers a repeating interval (callback 0 records 7) and a window resize
listener (callback 1 records 8) through the instrumented window. -/
def c2env : Env :=
  ⟨fun _ => [.elem "script" [] [.text "reg"]],
   fun _ => none,
   fun code =>
     if code == "reg" then [.setInterval .viaWindow 0 100, .addListener .viaWindow "resize" 1]
     else [],
   fun cb => if cb == 0 then [.record 7] else if cb == 1 then [.record 8] else []⟩

/-- The load-then-unmount trace of the unmount counterexamples. -/
def c2trace : List Cmd := [.observe "a" "/e.html", .resumeEntry 1 (.ok "H"), .unmount]

/-- Claim C2 (the code contradicts its own integration guide): on final
disposal the ledger is NOT drained — after a mini-app registers a
repeating interval and a window listener and the component unmounts, the
ledger still holds both release actions, the interval is still alive, the
interval then fires and records a value, and the listener then fires and
records a value: teardown by unmount leaves both resources live. -/
theorem unmount_skips_ledger_drain :
    (runTrace c2env c2trace).unmounted = true ∧
    shadowLedger (runTrace c2env c2trace) =
      [.clearTimer 0, .removeListener .win "resize" 1] ∧
    (runTrace c2env c2trace).world.timers =
      [⟨0, 0, true, true⟩] ∧
    (runTrace c2env c2trace).world.recorder = [] ∧
    (runTrace c2env (c2trace ++ [.fireTimer 0])).world.recorder = [7] ∧
    (runTrace c2env (c2trace ++ [.fireTimer 0, .fireListener .win "resize"])).world.recorder
      = [7, 8] :=
  ⟨rfl, rfl, rfl, rfl, rfl, rfl⟩

/-- The environment of the disposed-flag counterexample: the loaded script
registers an interval whose callback 0 schedules a fresh timeout (callback
1 records 9) through the captured instrumented window. -/
def c4env : Env :=
  ⟨fun _ => [.elem "script" [] [.text "boot"]],
   fun _ => none,
   fun code => if code == "boot" then [.setInterval .viaWindow 0 1000] else [],
   fun cb => if cb == 0 then [.setTimeout .viaWindow 1 50] else if cb == 1 then [.record 9] else []⟩

/-- The load-then-unmount trace of the disposed-flag counterexample. -/
def c4trace : List Cmd := [.observe "a" "/e.html", .resumeEntry 1 (.ok "H"), .unmount]

/-- Claim C4 counterexample: there is no disposed flag.  After unmount
(the component's only disposal), a surviving interval callback schedules a
timeout through the instrumented scope: the scheduling call returns
normally and registers a live timer and its ledger entry, and when that
timer fires its callback runs and records 9 — so a timer scheduled through
the instrumented scope after disposal does invoke its callback. -/
theorem no_disposed_flag_cex :
    (runTrace c4env c4trace).unmounted = true ∧
    (runTrace c4env (c4trace ++ [.fireTimer 0])).world.timers =
      [⟨0, 0, true, true⟩, ⟨1, 1, false, true⟩] ∧
    shadowLedger (runTrace c4env (c4trace ++ [.fireTimer 0])) =
      [.clearTimer 0, .clearTimer 1] ∧
    (runTrace c4env (c4trace ++ [.fireTimer 0])).world.recorder = [] ∧
    (runTrace c4env (c4trace ++ [.fireTimer 0, .fireTimer 1])).world.recorder = [9] :=
  ⟨rfl, rfl, rfl, rfl, rfl⟩

/-- Deadness of every timer with a given handle, over a world. -/
def timersDeadAt (w : World) (h : Nat) : Prop :=
  ∀ t ∈ w.timers, t.handle = h → t.alive = false

/-- Applying the clear-timer release kills every timer with that handle. -/
theorem applyRelease_clearTimer_dead (w : World) (h : Nat) :
    timersDeadAt (applyRelease w (.clearTimer h)) h := by
  intro t ht hh
  simp only [applyRelease, List.mem_map] at ht
  obtain ⟨s, _, hs⟩ := ht
  by_cases heq : (s.handle == h) = true
  · rw [if_pos heq] at hs
    rw [← hs]
  · rw [if_neg (by simpa using heq)] at hs
    subst hs
    exact absurd (by simpa using hh) (by simpa using heq)

/-- No release action revives a dead timer. -/
theorem applyRelease_dead_mono (w : World) (r : Release) (h : Nat)
    (hd : timersDeadAt w h) : timersDeadAt (applyRelease w r) h := by
  intro t ht hh
  cases r with
  | clearTimer h2 =>
    simp only [applyRelease, List.mem_map] at ht
    obtain ⟨s, hsm, hs⟩ := ht
    by_cases heq : (s.handle == h2) = true
    · rw [if_pos heq] at hs
      rw [← hs]
    · rw [if_neg (by simpa using heq)] at hs
      subst hs
      exact hd s hsm hh
  | cancelFrame h2 => exact hd t (by simpa [applyRelease] using ht) hh
  | removeListener tg ev cb => exact hd t (by simpa [applyRelease] using ht) hh
  | disconnectObserver h2 => exact hd t (by simpa [applyRelease] using ht) hh

/-- Dead timers stay dead across a whole drain. -/
theorem foldl_dead_mono (rest : List Release) :
    ∀ (w2 : World) (h : Nat),
      timersDeadAt w2 h → timersDeadAt (rest.foldl applyRelease w2) h := by
  induction rest with
  | nil => intro w2 h hd; simpa using hd
  | cons r2 rest2 ih =>
    intro w2 h hd
    exact ih (applyRelease w2 r2) h (applyRelease_dead_mono w2 r2 h hd)

/-- Draining a ledger that holds a clear-timer release leaves every timer
with that handle dead. -/
theorem drain_kills_timer :
    ∀ (led : List Release) (w : World) (h : Nat),
      Release.clearTimer h ∈ led → timersDeadAt (led.foldl applyRelease w) h := by
  intro led
  induction led with
  | nil => intro w h hmem; cases hmem
  | cons r rest ih =>
    intro w h hmem
    rcases List.mem_cons.mp hmem with hr | hr
    · subst hr
      exact foldl_dead_mono rest (applyRelease w (.clearTimer h)) h
        (applyRelease_clearTimer_dead w h)
    · exact ih (applyRelease w r) h hr

/-- Claim C4 amended: there is no disposed flag; a timer or frame scheduled
through the instrumented scope always performs the real scheduling call,
returns normally, and its callback does run when it fires — unless its
release action has been applied: draining a ledger holding the matching
clear-timer release kills the timer, and a cleared timer's firing is a
no-op (its callback never runs). -/
theorem drained_resources_inert :
    (∀ (w : World) (led : List Release) (cb d : Nat),
      execAct w led (.setTimeout .viaWindow cb d) =
        ((addTimer w cb false).1, led ++ [.clearTimer w.nextHandle], false)) ∧
    (∀ (led : List Release) (w : World) (h : Nat),
      Release.clearTimer h ∈ led →
      timersDeadAt (led.foldl applyRelease w) h) ∧
    (∀ (env : Env) (c : Comp) (h : Nat) (t : TimerRec),
      c.world.timers.find? (fun tr => tr.handle == h) = some t →
      t.alive = false →
      stepFireTimer env c h = c) := by
  refine ⟨fun w led cb d => rfl, drain_kills_timer, ?_⟩
  intro env c h t hfind halive
  simp [stepFireTimer, hfind, halive]

/-- A component holding one cleared timer, for the inertness witness. -/
def c4wcomp : Comp :=
  { initComp with world := { timers := [⟨0, 7, true, false⟩] } }

/-- Witness for drained_resources_inert: a concrete drain kills the timer
and a concrete fired cleared timer does nothing. -/
theorem drained_resources_inert_witness :
    execAct {} [] (.setTimeout .viaWindow 5 9) =
      ((addTimer {} 5 false).1, [.clearTimer 0], false) ∧
    (⟨0, 7, true, false⟩ : TimerRec).alive = false ∧
    stepFireTimer c5env c4wcomp 0 = c4wcomp := by
  refine ⟨?_, ?_, ?_⟩
  · have h := drained_resources_inert.1 {} [] 5 9
    simpa using h
  · exact drained_resources_inert.2.1 [Release.clearTimer 0]
      { timers := [⟨0, 7, true, true⟩] } 0 (by decide) ⟨0, 7, true, false⟩ (by decide) rfl
  · exact drained_resources_inert.2.2 c5env c4wcomp 0 ⟨0, 7, true, false⟩ rfl rfl

/-- The environment of the missing-slug counterexample: any fetched entry
parses to a single paragraph element. -/
def c8env : Env := ⟨fun _ => [.elem "p" [] []], fun _ => none, fun _ => [], fun _ => []⟩

/-- The trace that loads content and then observes a slug-less descriptor. -/
def c8trace : List Cmd := [.observe "a" "/e.html", .resumeEntry 1 (.ok "H")]

/-- Claim C8 counterexample: observing a descriptor with no slug DOES touch
the rendering root — clearShadow runs before the error is emitted, so the
previously rendered child disappears. -/
theorem missing_slug_clears_root_cex :
    (shadowChildren (runTrace c8env c8trace)).length = 1 ∧
    (shadowChildren (runTrace c8env (c8trace ++ [.observe "" "x"]))).length = 0 ∧
    (runTrace c8env (c8trace ++ [.observe "" "x"])).events =
      (runTrace c8env c8trace).events ++
        [.errorEv ⟨"", "x", 2, some missingSlugMsg, false⟩] ∧
    (runTrace c8env (c8trace ++ [.observe "" "x"])).fetchCount =
      (runTrace c8env c8trace).fetchCount :=
  ⟨rfl, rfl, rfl, rfl⟩

/-- Claim C8 amended: on a descriptor with no slug the loader emits exactly
the missing-slug error carrying the freshly minted ticket, attempts no
fetch, starts no task, leaves the world untouched and the ledger
untouched — but clears the rendering root's children first. -/
theorem missing_slug_behavior (c : Comp) (entry : String)
    (h : c.unmounted = false) :
    (stepObserve c "" entry).events =
      c.events ++ [.errorEv ⟨"", entry, c.ticket + 1, some missingSlugMsg, false⟩] ∧
    (stepObserve c "" entry).ticket = c.ticket + 1 ∧
    (stepObserve c "" entry).fetchCount = c.fetchCount ∧
    (stepObserve c "" entry).tasks = c.tasks ∧
    (stepObserve c "" entry).world = c.world ∧
    shadowChildren (stepObserve c "" entry) = [] ∧
    shadowLedger (stepObserve c "" entry) = shadowLedger c := by
  cases hs : c.shadow with
  | none =>
    simp [stepObserve, h, emitEv, clearShadowChildren, hs, shadowChildren, shadowLedger]
  | some sh =>
    simp [stepObserve, h, emitEv, clearShadowChildren, hs, shadowChildren, shadowLedger]

/-- Witness for missing_slug_behavior at the freshly mounted component. -/
theorem missing_slug_behavior_witness :
    (stepObserve initComp "" "/e.html").events =
      initComp.events ++ [.errorEv ⟨"", "/e.html", 1, some missingSlugMsg, false⟩] ∧
    (stepObserve initComp "" "/e.html").fetchCount = initComp.fetchCount :=
  ⟨(missing_slug_behavior initComp "/e.html" rfl).1,
   (missing_slug_behavior initComp "/e.html" rfl).2.2.1⟩

/-- Every logged runner invocation binds this and sandboxRoot to the
shadow root under the strict directive. -/
def goodInvs (c : Comp) : Prop :=
  ∀ r ∈ c.world.invocations,
    r.thisV = ThisVal.rootRef ∧ r.sandboxRootV = ThisVal.rootRef ∧ r.strict = true

/-- emitEv leaves the world unchanged. -/
theorem world_emitEv (c : Comp) (e : Ev) : (emitEv c e).world = c.world := rfl

/-- clearShadow leaves the world unchanged. -/
theorem world_clearShadowChildren (c : Comp) :
    (clearShadowChildren c).world = c.world := by
  cases hs : c.shadow <;> simp [clearShadowChildren, hs]

/-- The catch block leaves the world unchanged. -/
theorem world_loadCatch (c : Comp) (t : TaskCore) (msg : String) :
    (loadCatch c t msg).world = c.world := by
  simp only [loadCatch]
  split
  · rw [world_emitEv, world_clearShadowChildren]
  · rfl

/-- appendChild leaves the world unchanged. -/
theorem world_appendChildOpt (c : Comp) (oc : Option CNode) :
    (appendChildOpt c oc).world = c.world := by
  cases hs : c.shadow <;> simp [appendChildOpt, hs]

/-- Dropping a task leaves the world unchanged. -/
theorem world_removeTask (c : Comp) (tkt : Nat) :
    (removeTask c tkt).world = c.world := rfl

/-- A release action never touches the invocation log. -/
theorem applyRelease_invocations (w : World) (r : Release) :
    (applyRelease w r).invocations = w.invocations := by
  cases r <;> rfl

/-- A whole drain never touches the invocation log. -/
theorem drain_invocations (led : List Release) :
    ∀ w : World, (led.foldl applyRelease w).invocations = w.invocations := by
  induction led with
  | nil => intro w; rfl
  | cons r rest ih =>
    intro w
    rw [List.foldl_cons, ih, applyRelease_invocations]

/-- goodInvs transfers along equal invocation logs. -/
theorem goodInvs_of_eq (c c' : Comp)
    (h : c'.world.invocations = c.world.invocations) (hg : goodInvs c) :
    goodInvs c' := by
  intro r hr
  exact hg r (h ▸ hr)

/-- The executor preserves goodInvs: it appends only root-bound strict
invocations. -/
theorem finishInject_goodInvs (env : Env) (c : Comp) (t : TaskCore)
    (bucket : List ScriptUnit) (hg : goodInvs c) :
    goodInvs (finishInject env c t bucket) := by
  intro r hr
  simp only [finishInject, emitEv] at hr
  rw [runScriptList_invocations] at hr
  rcases List.mem_append.mp hr with h | h
  · exact hg r h
  · rcases List.mem_map.mp h with ⟨_, _, heq⟩
    subst heq
    exact ⟨rfl, rfl, rfl⟩

/-- The clone loop preserves goodInvs. -/
theorem runNodes_goodInvs (env : Env) (t : TaskCore) :
    ∀ (remaining : List HNode) (c : Comp) (bucket : List ScriptUnit),
      goodInvs c → goodInvs (runNodes env t c remaining bucket) := by
  intro remaining
  induction remaining with
  | nil =>
    intro c bucket hg
    rw [runNodes]
    split
    · exact hg
    · exact finishInject_goodInvs env c t bucket hg
  | cons node rest ih =>
    intro c bucket hg
    rw [runNodes]
    split
    · exact hg
    · split
      · exact goodInvs_of_eq c _ rfl hg
      · split
        · exact goodInvs_of_eq c _ (by rw [world_loadCatch]) hg
        · exact ih _ _ (goodInvs_of_eq c _ rfl hg)

/-- Entering injectHtml preserves goodInvs: the drain never writes to the
invocation log. -/
theorem injectEntry_goodInvs (env : Env) (c : Comp) (t : TaskCore)
    (html : String) (hg : goodInvs c) :
    goodInvs (injectEntry env c t html) := by
  rw [injectEntry]
  split
  · exact hg
  · apply runNodes_goodInvs
    intro r hr
    simp only at hr
    rw [drain_invocations] at hr
    exact hg r hr

/-- A fired callback preserves goodInvs: execActs never writes to the
invocation log. -/
theorem runCallback_goodInvs (env : Env) (c : Comp) (cb : Nat)
    (hg : goodInvs c) : goodInvs (runCallback env c cb) := by
  rw [runCallback]
  intro r hr
  simp only at hr
  rw [execActs_invocations] at hr
  exact hg r hr

/-- Every machine step preserves goodInvs. -/
theorem step_goodInvs (env : Env) (c : Comp) (cmd : Cmd) (hg : goodInvs c) :
    goodInvs (step env c cmd) := by
  cases cmd with
  | observe slug entry =>
    simp only [step, stepObserve]
    split
    · exact hg
    · split
      · exact goodInvs_of_eq c _ (by rw [world_emitEv, world_clearShadowChildren]) hg
      · split
        · exact goodInvs_of_eq c _ (by rw [world_emitEv, world_clearShadowChildren]) hg
        · split <;> exact goodInvs_of_eq c _ rfl hg
  | resumeEntry tkt res =>
    simp only [step, stepResumeEntry]
    split
    · exact hg
    · split
      · split
        · exact goodInvs_of_eq c _ rfl hg
        · split
          · exact injectEntry_goodInvs env _ _ _ (goodInvs_of_eq c _ rfl hg)
          · exact goodInvs_of_eq c _ (by rw [world_loadCatch, world_removeTask]) hg
      · exact hg
  | resumeClone tkt =>
    simp only [step, stepResumeClone]
    split
    · exact hg
    · split
      · split
        · exact goodInvs_of_eq c _ (by rw [world_loadCatch, world_removeTask]) hg
        · exact runNodes_goodInvs env _ _ _ _
            (goodInvs_of_eq c _ (by rw [world_appendChildOpt, world_removeTask]) hg)
      · exact hg
  | fireTimer h =>
    simp only [step, stepFireTimer]
    split
    · exact hg
    · split
      · apply runCallback_goodInvs
        intro r hr
        simp only at hr
        split at hr
        · exact hg r hr
        · rw [applyRelease_invocations] at hr
          exact hg r hr
      · exact hg
  | fireFrame h =>
    simp only [step, stepFireFrame]
    split
    · exact hg
    · split
      · apply runCallback_goodInvs
        intro r hr
        simp only at hr
        rw [applyRelease_invocations] at hr
        exact hg r hr
      · exact hg
  | fireListener tg ev =>
    simp only [step, stepFireListener]
    generalize (c.world.listeners.filter fun l =>
      l.target == tg && l.ev == ev && l.alive) = ls
    induction ls generalizing c with
    | nil => exact hg
    | cons l rest ih =>
      rw [List.foldl_cons]
      exact ih _ (runCallback_goodInvs env c l.cb hg)
  | unmount =>
    simp only [step, stepUnmount]
    split
    · exact hg
    · split <;>
        exact goodInvs_of_eq c _ (by rw [world_clearShadowChildren]) hg

/-- Claim C10: for every executed script the compiled runner is invoked
with this bound to the shadow root, the same value passed as the
sandboxRoot parameter, so top-level this inside a mini-app script is the
isolated root — never undefined and never the real global object — even
under the prepended strict directive. -/
theorem runner_this_is_root (env : Env) (cmds : List Cmd) :
    ∀ r ∈ (runTrace env cmds).world.invocations,
      r.thisV = ThisVal.rootRef ∧ r.sandboxRootV = ThisVal.rootRef ∧
      r.thisV ≠ ThisVal.undef ∧ r.thisV ≠ ThisVal.globalObj ∧ r.strict = true := by
  have main : goodInvs (runTrace env cmds) := by
    rw [runTrace]
    have : goodInvs initComp := by intro r hr; cases hr
    generalize initComp = c0 at this ⊢
    induction cmds generalizing c0 with
    | nil => exact this
    | cons cmd rest ih => exact ih (step env c0 cmd) (step_goodInvs env c0 cmd this)
  intro r hr
  obtain ⟨h1, h2, h3⟩ := main r hr
  refine ⟨h1, h2, ?_, ?_, h3⟩
  · rw [h1]
    exact fun hc => ThisVal.noConfusion hc
  · rw [h1]
    exact fun hc => ThisVal.noConfusion hc

/-- The single-inline-script environment of the this-binding witness. -/
def c10env : Env :=
  ⟨fun _ => [.elem "script" [] [.text "probe"]], fun _ => none, fun _ => [], fun _ => []⟩

/-- Witness for runner_this_is_root: one executed script logs exactly one
root-bound strict invocation. -/
theorem runner_this_is_root_witness :
    (runTrace c10env [.observe "a" "/e.html", .resumeEntry 1 (.ok "H")]).world.invocations =
      [⟨ThisVal.rootRef, ThisVal.rootRef, true⟩] ∧
    (⟨ThisVal.rootRef, ThisVal.rootRef, true⟩ : InvRec).thisV ≠ ThisVal.undef := by
  refine ⟨rfl, ?_⟩
  have hmem : (⟨ThisVal.rootRef, ThisVal.rootRef, true⟩ : InvRec) ∈
      (runTrace c10env [.observe "a" "/e.html", .resumeEntry 1 (.ok "H")]).world.invocations := by
    rw [show (runTrace c10env [.observe "a" "/e.html",
      .resumeEntry 1 (.ok "H")]).world.invocations =
        [⟨ThisVal.rootRef, ThisVal.rootRef, true⟩] from rfl]
    exact List.mem_singleton.mpr rfl
  exact (runner_this_is_root c10env [.observe "a" "/e.html", .resumeEntry 1 (.ok "H")]
    ⟨ThisVal.rootRef, ThisVal.rootRef, true⟩ hmem).2.2.1

/-- The payloads of the settled (loaded or error) events, in order. -/
def settledPayloads : List Ev → List Payload
  | [] => []
  | .loading _ :: rest => settledPayloads rest
  | .loaded p :: rest => p :: settledPayloads rest
  | .errorEv p :: rest => p :: settledPayloads rest

/-- settledPayloads distributes over append. -/
theorem settledPayloads_append (l1 l2 : List Ev) :
    settledPayloads (l1 ++ l2) = settledPayloads l1 ++ settledPayloads l2 := by
  induction l1 with
  | nil => rfl
  | cons e rest ih => cases e <;> simp [settledPayloads, ih]

/-- The machine invariant behind ticket monotonicity: every task's ticket
and every settled payload's ticket is bounded by the current ticket, the
settled tickets are non-decreasing, and every controller identifier in
play is below the fresh-controller counter. -/
structure Inv (c : Comp) : Prop where
  tasksLe : ∀ t ∈ c.tasks, t.core.tkt ≤ c.ticket
  settledLe : ∀ p ∈ settledPayloads c.events, p.ticket ≤ c.ticket
  chain : List.Chain' (fun p q => p.ticket ≤ q.ticket) (settledPayloads c.events)
  abortedLt : ∀ a ∈ c.abortedCtrls, a < c.nextCtrl
  activeLt : ∀ a, c.activeCtrl = some a → a < c.nextCtrl
  tasksCtrlLt : ∀ t ∈ c.tasks, t.core.ctrl < c.nextCtrl

/-- Membership from getLast?. -/
theorem mem_of_mem_getLast (l : List Payload) (x : Payload)
    (hx : x ∈ l.getLast?) : x ∈ l := by
  obtain ⟨h, rfl⟩ := List.mem_getLast?_eq_getLast hx
  exact List.getLast_mem h

/-- A constant-ticket block chains. -/
theorem chain_of_const (ps : List Payload) (tick : Nat)
    (hp : ∀ p ∈ ps, p.ticket = tick) :
    List.Chain' (fun a b => a.ticket ≤ b.ticket) ps := by
  induction ps with
  | nil => exact List.chain'_nil
  | cons p rest ih =>
    apply List.Chain'.cons'
    · exact ih (fun q hq => hp q (List.mem_cons_of_mem p hq))
    · intro y hy
      have hyr : y ∈ rest := by
        cases rest with
        | nil => cases hy
        | cons a l => exact List.mem_of_mem_head? hy
      rw [hp p (List.mem_cons_self p rest), hp y (List.mem_cons_of_mem p hyr)]

/-- Appending a block of payloads at the current tick keeps the settled
chain sorted when the old block is bounded by the tick. -/
theorem chain_append_const (l ps : List Payload) (tick : Nat)
    (hc : List.Chain' (fun a b => a.ticket ≤ b.ticket) l)
    (hle : ∀ q ∈ l, q.ticket ≤ tick)
    (hp : ∀ p ∈ ps, p.ticket = tick) :
    List.Chain' (fun a b => a.ticket ≤ b.ticket) (l ++ ps) := by
  apply hc.append (chain_of_const ps tick hp)
  intro x hx y hy
  have hxl : x ∈ l := mem_of_mem_getLast l x hx
  have hyp : y ∈ ps := by
    cases ps with
    | nil => cases hy
    | cons a rest => exact List.mem_of_mem_head? hy
  rw [hp y hyp]
  exact hle x hxl

/-- A list of naturals all below a bound never contains the bound. -/
theorem contains_false_of_lt (l : List Nat) (n : Nat) (h : ∀ x ∈ l, x < n) :
    l.contains n = false := by
  induction l with
  | nil => rfl
  | cons x rest ih =>
    have hx := h x (List.mem_cons_self x rest)
    have hne : (n == x) = false := by
      simp [Nat.ne_of_gt hx]
    simp only [List.contains_cons, hne, Bool.false_or]
    exact ih (fun y hy => h y (List.mem_cons_of_mem x hy))

/-- find? skips a block on which the predicate is false. -/
theorem find?_append_right {α : Type} (l1 l2 : List α) (p : α → Bool)
    (h : ∀ x ∈ l1, p x = false) : (l1 ++ l2).find? p = l2.find? p := by
  induction l1 with
  | nil => rfl
  | cons x rest ih =>
    simp only [List.cons_append, List.find?_cons,
      h x (List.mem_cons_self x rest)]
    exact ih (fun y hy => h y (List.mem_cons_of_mem x hy))

/-- The catch block never changes the ticket, tasks or controllers. -/
theorem loadCatch_fields (c : Comp) (t : TaskCore) (msg : String) :
    (loadCatch c t msg).ticket = c.ticket ∧
    (loadCatch c t msg).tasks = c.tasks ∧
    (loadCatch c t msg).abortedCtrls = c.abortedCtrls ∧
    (loadCatch c t msg).activeCtrl = c.activeCtrl ∧
    (loadCatch c t msg).nextCtrl = c.nextCtrl ∧
    (loadCatch c t msg).unmounted = c.unmounted := by
  simp only [loadCatch]
  split <;> exact ⟨rfl, rfl, rfl, rfl, rfl, rfl⟩

/-- The catch block appends the error payload exactly when the ticket is
still current. -/
theorem loadCatch_settled (c : Comp) (t : TaskCore) (msg : String) :
    settledPayloads (loadCatch c t msg).events =
      settledPayloads c.events ++
        (if c.ticket = t.tkt then [⟨t.slug, t.entry, t.tkt, some msg, false⟩] else []) := by
  simp only [loadCatch]
  split
  next h =>
    rw [if_pos (by simpa using h)]
    simp [emitEv, clearShadowChildren, settledPayloads_append, settledPayloads]
  next h =>
    rw [if_neg (by simpa using h)]
    simp

/-- The effect of the clone loop on every field the invariant watches:
ticket, controllers and unmounted are untouched, tasks grow only by a
re-suspension of the running load at the current ticket, and settled
events grow only by payloads carrying the current ticket. -/
theorem runNodes_fields (env : Env) (t : TaskCore) :
    ∀ (remaining : List HNode) (c : Comp) (bucket : List ScriptUnit),
      (runNodes env t c remaining bucket).ticket = c.ticket ∧
      (runNodes env t c remaining bucket).nextCtrl = c.nextCtrl ∧
      (runNodes env t c remaining bucket).abortedCtrls = c.abortedCtrls ∧
      (runNodes env t c remaining bucket).activeCtrl = c.activeCtrl ∧
      (runNodes env t c remaining bucket).unmounted = c.unmounted ∧
      (∃ ts2, (runNodes env t c remaining bucket).tasks = c.tasks ++ ts2 ∧
        ∀ x ∈ ts2, x.core = t ∧ t.tkt = c.ticket) ∧
      (∃ ps, settledPayloads (runNodes env t c remaining bucket).events =
        settledPayloads c.events ++ ps ∧ ∀ p ∈ ps, p.ticket = c.ticket) := by
  intro remaining
  induction remaining with
  | nil =>
    intro c bucket
    rw [runNodes]
    split
    next h =>
      exact ⟨rfl, rfl, rfl, rfl, rfl, ⟨[], by simp⟩, ⟨[], by simp⟩⟩
    next h =>
      have ht : t.tkt = c.ticket := by
        simp only [bne_iff_ne, ne_eq, not_not] at h
        omega
      exact ⟨rfl, rfl, rfl, rfl, rfl, ⟨[], by simp [finishInject, emitEv]⟩,
        ⟨[payloadBase t], by
          constructor
          · simp [finishInject, emitEv, settledPayloads_append, settledPayloads]
          · intro p hp
            rw [List.mem_singleton] at hp
            subst hp
            exact ht⟩⟩
  | cons node rest ih =>
    intro c bucket
    rw [runNodes]
    split
    next h =>
      exact ⟨rfl, rfl, rfl, rfl, rfl, ⟨[], by simp⟩, ⟨[], by simp⟩⟩
    next h =>
      have ht : t.tkt = c.ticket := by
        simp only [bne_iff_ne, ne_eq, not_not] at h
        omega
      split
      next hf =>
        refine ⟨rfl, rfl, rfl, rfl, rfl,
          ⟨[⟨t, .awaitClone node rest bucket⟩], by simp, ?_⟩, ⟨[], by simp⟩⟩
        intro x hx
        rw [List.mem_singleton] at hx
        subst hx
        exact ⟨rfl, ht⟩
      next hf =>
        split
        next e hc =>
          obtain ⟨f1, f2, f3, f4, f5, f6⟩ := loadCatch_fields c t e
          refine ⟨f1, f5, f3, f4, f6, ⟨[], by simp [f2]⟩, ?_⟩
          rw [loadCatch_settled]
          by_cases hg : c.ticket = t.tkt
          · exact ⟨[⟨t.slug, t.entry, t.tkt, some e, false⟩], by rw [if_pos hg], by
              intro p hp
              rw [List.mem_singleton] at hp
              subst hp
              exact hg.symm⟩
          · exact ⟨[], by rw [if_neg hg], by simp⟩
        next p hc =>
          obtain ⟨g1, g2, g3, g4, g5, g6, g7⟩ := ih (appendChildOpt c p.1) (bucket ++ p.2)
          refine ⟨g1, g2, g3, g4, g5, ?_, ?_⟩
          · obtain ⟨ts2, hts, hall⟩ := g6
            exact ⟨ts2, hts, fun x hx => hall x hx⟩
          · obtain ⟨ps, hps, hall⟩ := g7
            exact ⟨ps, hps, fun q hq => hall q hq⟩

/-- Inv survives dropping a task. -/
theorem inv_removeTask (c : Comp) (tkt : Nat) (hi : Inv c) :
    Inv (removeTask c tkt) := by
  obtain ⟨h1, h2, h3, h4, h5, h6⟩ := hi
  refine ⟨?_, h2, h3, h4, h5, ?_⟩
  · intro t ht
    exact h1 t (List.mem_of_mem_filter ht)
  · intro t ht
    exact h6 t (List.mem_of_mem_filter ht)

/-- Inv survives the catch block. -/
theorem inv_loadCatch (c : Comp) (t : TaskCore) (msg : String) (hi : Inv c) :
    Inv (loadCatch c t msg) := by
  obtain ⟨h1, h2, h3, h4, h5, h6⟩ := hi
  obtain ⟨f1, f2, f3, f4, f5, f6⟩ := loadCatch_fields c t msg
  refine ⟨?_, ?_, ?_, ?_, ?_, ?_⟩
  · rw [f1, f2]; exact h1
  · rw [f1, loadCatch_settled]
    intro p hp
    rcases List.mem_append.mp hp with h | h
    · exact h2 p h
    · split at h
      next hg =>
        rw [List.mem_singleton] at h
        subst h
        exact Nat.le_of_eq hg.symm
      next => cases h
  · rw [loadCatch_settled]
    split
    next hg =>
      apply chain_append_const _ _ c.ticket h3 h2
      intro p hp
      rw [List.mem_singleton] at hp
      subst hp
      exact hg.symm
    next => simpa using h3
  · rw [f3, f5]; exact h4
  · rw [f4, f5]; exact h5
  · rw [f2, f5]; exact h6

/-- Inv survives the clone loop, provided the running load's controller is
in bounds. -/
theorem inv_runNodes (env : Env) (t : TaskCore) (c : Comp)
    (remaining : List HNode) (bucket : List ScriptUnit)
    (hi : Inv c) (hctrl : t.ctrl < c.nextCtrl) :
    Inv (runNodes env t c remaining bucket) := by
  obtain ⟨h1, h2, h3, h4, h5, h6⟩ := hi
  obtain ⟨g1, g2, g3, g4, g5, ⟨ts2, hts, hall⟩, ⟨ps, hps, hpall⟩⟩ :=
    runNodes_fields env t remaining c bucket
  refine ⟨?_, ?_, ?_, ?_, ?_, ?_⟩
  · rw [g1, hts]
    intro x hx
    rcases List.mem_append.mp hx with h | h
    · exact h1 x h
    · obtain ⟨hc, htk⟩ := hall x h
      rw [hc, htk]
  · rw [g1, hps]
    intro p hp
    rcases List.mem_append.mp hp with h | h
    · exact h2 p h
    · rw [hpall p h]
  · rw [hps]
    exact chain_append_const _ _ c.ticket h3 h2 hpall
  · rw [g3, g2]; exact h4
  · rw [g4, g2]; exact h5
  · rw [g2, hts]
    intro x hx
    rcases List.mem_append.mp hx with h | h
    · exact h6 x h
    · obtain ⟨hc, _⟩ := hall x h
      rw [hc]
      exact hctrl

/-- Inv survives entering injectHtml. -/
theorem inv_injectEntry (env : Env) (c : Comp) (t : TaskCore) (html : String)
    (hi : Inv c) (hctrl : t.ctrl < c.nextCtrl) :
    Inv (injectEntry env c t html) := by
  rw [injectEntry]
  split
  · exact hi
  · apply inv_runNodes
    · obtain ⟨h1, h2, h3, h4, h5, h6⟩ := hi
      exact ⟨h1, h2, h3, h4, h5, h6⟩
    · exact hctrl

/-- Inv survives a fired-callback fold. -/
theorem inv_runCallback_foldl (env : Env) (ls : List ListenerRec) :
    ∀ c : Comp, Inv c →
      Inv (ls.foldl (fun acc l => runCallback env acc l.cb) c) := by
  induction ls with
  | nil => intro c hi; exact hi
  | cons l rest ih =>
    intro c hi
    rw [List.foldl_cons]
    apply ih
    obtain ⟨h1, h2, h3, h4, h5, h6⟩ := hi
    exact ⟨h1, h2, h3, h4, h5, h6⟩

/-- Inv is preserved by every machine step. -/
theorem step_inv (env : Env) (c : Comp) (cmd : Cmd) (hi : Inv c) :
    Inv (step env c cmd) := by
  obtain ⟨h1, h2, h3, h4, h5, h6⟩ := hi
  cases cmd with
  | observe slug entry =>
    simp only [step, stepObserve]
    split
    next => exact ⟨h1, h2, h3, h4, h5, h6⟩
    next =>
      split
      next hslug =>
        refine ⟨?_, ?_, ?_, h4, h5, h6⟩
        · intro t ht
          exact Nat.le_trans (h1 t ht) (Nat.le_succ _)
        · simp only [emitEv, clearShadowChildren, settledPayloads_append]
          intro p hp
          rcases List.mem_append.mp hp with h | h
          · exact Nat.le_trans (h2 p h) (Nat.le_succ _)
          · simp only [settledPayloads, List.mem_singleton] at h
            subst h
            exact Nat.le_refl _
        · simp only [emitEv, clearShadowChildren, settledPayloads_append]
          apply chain_append_const _ _ (c.ticket + 1) h3
          · intro q hq
            exact Nat.le_trans (h2 q hq) (Nat.le_succ _)
          · intro p hp
            simp only [settledPayloads, List.mem_singleton] at hp
            subst hp
            rfl
      next hslug =>
        split
        next hentry =>
          refine ⟨?_, ?_, ?_, h4, h5, h6⟩
          · intro t ht
            exact Nat.le_trans (h1 t ht) (Nat.le_succ _)
          · simp only [emitEv, clearShadowChildren, settledPayloads_append]
            intro p hp
            rcases List.mem_append.mp hp with h | h
            · exact Nat.le_trans (h2 p h) (Nat.le_succ _)
            · simp only [settledPayloads, List.mem_singleton] at h
              subst h
              exact Nat.le_refl _
          · simp only [emitEv, clearShadowChildren, settledPayloads_append]
            apply chain_append_const _ _ (c.ticket + 1) h3
            · intro q hq
              exact Nat.le_trans (h2 q hq) (Nat.le_succ _)
            · intro p hp
              simp only [settledPayloads, List.mem_singleton] at hp
              subst hp
              rfl
        next hentry =>
          cases hac : c.activeCtrl with
          | none =>
            simp only [hac]
            refine ⟨?_, ?_, ?_, ?_, ?_, ?_⟩
            · simp only [emitEv]
              intro t ht
              rcases List.mem_append.mp ht with h | h
              · exact Nat.le_trans (h1 t h) (Nat.le_succ _)
              · rw [List.mem_singleton] at h
                subst h
                exact Nat.le_refl _
            · simp only [emitEv, settledPayloads_append, settledPayloads,
                List.append_nil]
              intro p hp
              exact Nat.le_trans (h2 p hp) (Nat.le_succ _)
            · simp only [emitEv, settledPayloads_append, settledPayloads,
                List.append_nil]
              exact h3
            · intro a ha
              exact Nat.lt_trans (h4 a ha) (Nat.lt_succ_self _)
            · intro a ha
              simp only [emitEv, Option.some.injEq] at ha
              show a < c.nextCtrl + 1
              omega
            · simp only [emitEv]
              intro t ht
              rcases List.mem_append.mp ht with h | h
              · exact Nat.lt_trans (h6 t h) (Nat.lt_succ_self _)
              · rw [List.mem_singleton] at h
                subst h
                exact Nat.lt_succ_self _
          | some a0 =>
            simp only [hac]
            refine ⟨?_, ?_, ?_, ?_, ?_, ?_⟩
            · simp only [emitEv]
              intro t ht
              rcases List.mem_append.mp ht with h | h
              · exact Nat.le_trans (h1 t h) (Nat.le_succ _)
              · rw [List.mem_singleton] at h
                subst h
                exact Nat.le_refl _
            · simp only [emitEv, settledPayloads_append, settledPayloads,
                List.append_nil]
              intro p hp
              exact Nat.le_trans (h2 p hp) (Nat.le_succ _)
            · simp only [emitEv, settledPayloads_append, settledPayloads,
                List.append_nil]
              exact h3
            · intro a ha
              rcases List.mem_append.mp ha with h | h
              · exact Nat.lt_trans (h4 a h) (Nat.lt_succ_self _)
              · rw [List.mem_singleton] at h
                subst h
                exact Nat.lt_trans (h5 a hac) (Nat.lt_succ_self _)
            · intro a ha
              simp only [emitEv, Option.some.injEq] at ha
              show a < c.nextCtrl + 1
              omega
            · simp only [emitEv]
              intro t ht
              rcases List.mem_append.mp ht with h | h
              · exact Nat.lt_trans (h6 t h) (Nat.lt_succ_self _)
              · rw [List.mem_singleton] at h
                subst h
                exact Nat.lt_succ_self _
  | resumeEntry tkt res =>
    simp only [step, stepResumeEntry]
    split
    next => exact ⟨h1, h2, h3, h4, h5, h6⟩
    next task hfind =>
      have hmem : task ∈ c.tasks := List.mem_of_find?_eq_some hfind
      cases hpc : task.pc with
      | awaitClone node rest bucket => exact ⟨h1, h2, h3, h4, h5, h6⟩
      | awaitEntry =>
        have hir : Inv (removeTask c tkt) :=
          inv_removeTask c tkt ⟨h1, h2, h3, h4, h5, h6⟩
        by_cases hab : (removeTask c tkt).abortedCtrls.contains task.core.ctrl = true
        · rw [if_pos hab]
          exact hir
        · rw [if_neg hab]
          cases res with
          | ok html =>
            exact inv_injectEntry env _ _ html hir (h6 task hmem)
          | httpErr s =>
            exact inv_loadCatch _ _ _ hir
  | resumeClone tkt =>
    simp only [step, stepResumeClone]
    split
    next => exact ⟨h1, h2, h3, h4, h5, h6⟩
    next task hfind =>
      have hmem : task ∈ c.tasks := List.mem_of_find?_eq_some hfind
      cases hpc : task.pc with
      | awaitEntry => exact ⟨h1, h2, h3, h4, h5, h6⟩
      | awaitClone node rest bucket =>
        have hir : Inv (removeTask c tkt) :=
          inv_removeTask c tkt ⟨h1, h2, h3, h4, h5, h6⟩
        show Inv (match cloneNodeTree env.fetchAsset (entryBaseUrl task.core.entry) node with
          | Except.error msg => loadCatch (removeTask c tkt) task.core msg
          | Except.ok p =>
            runNodes env task.core (appendChildOpt (removeTask c tkt) p.1) rest (bucket ++ p.2))
        cases hclone : cloneNodeTree env.fetchAsset (entryBaseUrl task.core.entry) node with
        | error msg =>
          exact inv_loadCatch _ _ _ hir
        | ok p =>
          apply inv_runNodes
          · obtain ⟨i1, i2, i3, i4, i5, i6⟩ := hir
            exact ⟨i1, i2, i3, i4, i5, i6⟩
          · exact h6 task hmem
  | fireTimer h =>
    simp only [step, stepFireTimer]
    split
    next => exact ⟨h1, h2, h3, h4, h5, h6⟩
    next t hfind =>
      split
      next => exact ⟨h1, h2, h3, h4, h5, h6⟩
      next => exact ⟨h1, h2, h3, h4, h5, h6⟩
  | fireFrame h =>
    simp only [step, stepFireFrame]
    split
    next => exact ⟨h1, h2, h3, h4, h5, h6⟩
    next f hfind =>
      split
      next => exact ⟨h1, h2, h3, h4, h5, h6⟩
      next => exact ⟨h1, h2, h3, h4, h5, h6⟩
  | fireListener tg ev =>
    simp only [step, stepFireListener]
    exact inv_runCallback_foldl env _ c ⟨h1, h2, h3, h4, h5, h6⟩
  | unmount =>
    simp only [step, stepUnmount]
    split
    next => exact ⟨h1, h2, h3, h4, h5, h6⟩
    next =>
      cases hac : c.activeCtrl with
      | none =>
        simp only [clearShadowChildren, hac]
        refine ⟨?_, ?_, ?_, h4, ?_, h6⟩
        · intro t ht
          exact Nat.le_trans (h1 t ht) (Nat.le_succ _)
        · intro p hp
          exact Nat.le_trans (h2 p hp) (Nat.le_succ _)
        · exact h3
        · intro a ha
          cases ha
      | some a0 =>
        simp only [clearShadowChildren, hac]
        refine ⟨?_, ?_, ?_, ?_, ?_, h6⟩
        · intro t ht
          exact Nat.le_trans (h1 t ht) (Nat.le_succ _)
        · intro p hp
          exact Nat.le_trans (h2 p hp) (Nat.le_succ _)
        · exact h3
        · intro a ha
          rcases List.mem_append.mp ha with h | h
          · exact h4 a h
          · rw [List.mem_singleton] at h
            subst h
            exact h5 a hac
        · intro a ha
          cases ha

/-- Inv holds for every reachable state. -/
theorem runTrace_inv (env : Env) (cmds : List Cmd) : Inv (runTrace env cmds) := by
  rw [runTrace]
  have h0 : Inv initComp :=
    ⟨fun t ht => absurd ht (List.not_mem_nil t),
     fun p hp => absurd hp (List.not_mem_nil p),
     List.chain'_nil,
     fun a ha => absurd ha (List.not_mem_nil a),
     fun a ha => Option.noConfusion ha,
     fun t ht => absurd ht (List.not_mem_nil t)⟩
  generalize initComp = c0 at h0 ⊢
  induction cmds generalizing c0 with
  | nil => exact h0
  | cons cmd rest ih => exact ih (step env c0 cmd) (step_inv env c0 cmd h0)

/-- The clone loop is the identity once the ticket is stale. -/
theorem runNodes_stale (env : Env) (t : TaskCore) (c : Comp)
    (remaining : List HNode) (bucket : List ScriptUnit)
    (h : c.ticket ≠ t.tkt) :
    runNodes env t c remaining bucket = c := by
  cases remaining with
  | nil =>
    rw [runNodes]
    rw [if_pos (by simpa [bne_iff_ne] using h)]
  | cons n rest =>
    rw [runNodes]
    rw [if_pos (by simpa [bne_iff_ne] using h)]

/-- The catch block is the identity once the ticket is stale. -/
theorem loadCatch_stale (c : Comp) (t : TaskCore) (msg : String)
    (h : c.ticket ≠ t.tkt) : loadCatch c t msg = c := by
  simp only [loadCatch]
  rw [if_neg (by simpa using h)]

/-- The commands of the settlement phase: resolutions and firings, but no
further descriptor observation and no unmount. -/
def restCmd : Cmd → Bool
  | .observe _ _ => false
  | .unmount => false
  | _ => true

/-- A fired-callback fold never changes events, ticket or tasks. -/
theorem foldl_runCallback_fields (env : Env) (ls : List ListenerRec) :
    ∀ c : Comp,
      (ls.foldl (fun acc l => runCallback env acc l.cb) c).events = c.events ∧
      (ls.foldl (fun acc l => runCallback env acc l.cb) c).ticket = c.ticket ∧
      (ls.foldl (fun acc l => runCallback env acc l.cb) c).tasks = c.tasks := by
  induction ls with
  | nil => intro c; exact ⟨rfl, rfl, rfl⟩
  | cons l rest ih =>
    intro c
    rw [List.foldl_cons]
    exact ih (runCallback env c l.cb)

/-- During the settlement phase, when every in-flight load is stale, no
step emits an event, changes the ticket, or revives a load: stale
completions are silent (though they may still mutate the root). -/
theorem step_rest (env : Env) (c : Comp) (cmd : Cmd) (hr : restCmd cmd = true)
    (hstale : ∀ t ∈ c.tasks, t.core.tkt < c.ticket) :
    (step env c cmd).events = c.events ∧
    (step env c cmd).ticket = c.ticket ∧
    (∀ t ∈ (step env c cmd).tasks, t.core.tkt < c.ticket) := by
  cases cmd with
  | observe slug entry => cases hr
  | unmount => cases hr
  | fireTimer h =>
    simp only [step, stepFireTimer]
    split
    next => exact ⟨rfl, rfl, hstale⟩
    next t hfind =>
      split
      next => exact ⟨rfl, rfl, hstale⟩
      next => exact ⟨rfl, rfl, hstale⟩
  | fireFrame h =>
    simp only [step, stepFireFrame]
    split
    next => exact ⟨rfl, rfl, hstale⟩
    next f hfind =>
      split
      next => exact ⟨rfl, rfl, hstale⟩
      next => exact ⟨rfl, rfl, hstale⟩
  | fireListener tg ev =>
    simp only [step, stepFireListener]
    obtain ⟨he, ht, hts⟩ := foldl_runCallback_fields env
      (c.world.listeners.filter fun l => l.target == tg && l.ev == ev && l.alive) c
    exact ⟨he, ht, by rw [hts]; exact hstale⟩
  | resumeEntry tkt res =>
    simp only [step, stepResumeEntry]
    split
    next => exact ⟨rfl, rfl, hstale⟩
    next task hfind =>
      have hmem : task ∈ c.tasks := List.mem_of_find?_eq_some hfind
      have htkt : task.core.tkt = tkt := by
        have := List.find?_some hfind
        simpa using this
      have hlt : task.core.tkt < c.ticket := hstale task hmem
      have hstale2 : ∀ t ∈ (removeTask c tkt).tasks, t.core.tkt < c.ticket :=
        fun t ht => hstale t (List.mem_of_mem_filter ht)
      cases hpc : task.pc with
      | awaitClone node rest bucket => exact ⟨rfl, rfl, hstale⟩
      | awaitEntry =>
        by_cases hab : (removeTask c tkt).abortedCtrls.contains task.core.ctrl = true
        · rw [if_pos hab]
          exact ⟨rfl, rfl, hstale2⟩
        · rw [if_neg hab]
          cases res with
          | ok html =>
            simp only [injectEntry]
            split
            next => exact ⟨rfl, rfl, hstale2⟩
            next =>
              rw [runNodes_stale env task.core _ _ _ (by
                show c.ticket ≠ task.core.tkt
                omega)]
              exact ⟨rfl, rfl, hstale2⟩
          | httpErr s =>
            have hguard : ((removeTask c tkt).ticket == task.core.tkt) = false := by
              show (c.ticket == task.core.tkt) = false
              simp only [beq_eq_false_iff_ne, ne_eq]
              omega
            simp only [loadCatch, hguard, Bool.false_eq_true, if_false]
            exact ⟨rfl, rfl, hstale2⟩
  | resumeClone tkt =>
    simp only [step, stepResumeClone]
    split
    next => exact ⟨rfl, rfl, hstale⟩
    next task hfind =>
      have hmem : task ∈ c.tasks := List.mem_of_find?_eq_some hfind
      have htkt : task.core.tkt = tkt := by
        have := List.find?_some hfind
        simpa using this
      have hlt : task.core.tkt < c.ticket := hstale task hmem
      have hstale2 : ∀ t ∈ (removeTask c tkt).tasks, t.core.tkt < c.ticket :=
        fun t ht => hstale t (List.mem_of_mem_filter ht)
      cases hpc : task.pc with
      | awaitEntry => exact ⟨rfl, rfl, hstale⟩
      | awaitClone node rest bucket =>
        have key : ∀ r : Except String (Option CNode × List ScriptUnit),
            (match r with
              | Except.error msg => loadCatch (removeTask c tkt) task.core msg
              | Except.ok p =>
                runNodes env task.core (appendChildOpt (removeTask c tkt) p.1) rest
                  (bucket ++ p.2)).events = c.events ∧
            (match r with
              | Except.error msg => loadCatch (removeTask c tkt) task.core msg
              | Except.ok p =>
                runNodes env task.core (appendChildOpt (removeTask c tkt) p.1) rest
                  (bucket ++ p.2)).ticket = c.ticket ∧
            (∀ t : Task, t ∈ (match r with
              | Except.error msg => loadCatch (removeTask c tkt) task.core msg
              | Except.ok p =>
                runNodes env task.core (appendChildOpt (removeTask c tkt) p.1) rest
                  (bucket ++ p.2)).tasks → t.core.tkt < c.ticket) := by
          intro r
          cases r with
          | error msg =>
            simp only []
            rw [loadCatch_stale (removeTask c tkt) task.core msg (by
              show c.ticket ≠ task.core.tkt
              omega)]
            exact ⟨rfl, rfl, hstale2⟩
          | ok p =>
            simp only []
            rw [runNodes_stale env task.core (appendChildOpt (removeTask c tkt) p.1) rest
              (bucket ++ p.2) (by
                show c.ticket ≠ task.core.tkt
                omega)]
            exact ⟨rfl, rfl, hstale2⟩
        exact key (cloneNodeTree env.fetchAsset (entryBaseUrl task.core.entry) node)

/-- A whole settlement phase leaves events and ticket unchanged when every
in-flight load is stale. -/
theorem foldl_rest (env : Env) :
    ∀ (cmds : List Cmd) (c : Comp),
      (∀ cmd ∈ cmds, restCmd cmd = true) →
      (∀ t ∈ c.tasks, t.core.tkt < c.ticket) →
      (cmds.foldl (step env) c).events = c.events ∧
      (cmds.foldl (step env) c).ticket = c.ticket := by
  intro cmds
  induction cmds with
  | nil => intro c _ _; exact ⟨rfl, rfl⟩
  | cons cmd rest ih =>
    intro c hall hstale
    obtain ⟨he, ht, hs⟩ := step_rest env c cmd
      (hall cmd (List.mem_cons_self cmd rest)) hstale
    obtain ⟨ihe, iht⟩ := ih (step env c cmd)
      (fun x hx => hall x (List.mem_cons_of_mem cmd hx))
      (fun t htm => ht ▸ hs t htm)
    rw [List.foldl_cons, ihe, iht, he, ht]
    exact ⟨rfl, rfl⟩

mutual

/-- A node whose subtree needs no asset fetch always clones successfully. -/
theorem clone_noFetch_ok (env : String → Option String) (b : BaseUrl) :
    ∀ n : HNode, nodeNeedsAssetFetch n = false →
      ∃ p, cloneNodeTree env b n = .ok p
  | .text s, _ => ⟨(some (.text s), []), rfl⟩
  | .comment s, _ => ⟨(none, []), rfl⟩
  | .elem tag attrs children, h => by
    simp only [nodeNeedsAssetFetch] at h
    simp only [cloneNodeTree]
    split
    next hscript =>
      rw [if_pos hscript] at h
      split
      next htype => exact ⟨(none, []), rfl⟩
      next htype =>
        rw [if_neg htype] at h
        rw [if_neg (by simpa using h)]
        exact ⟨(none, [⟨textContentC children⟩]), rfl⟩
    next hscript =>
      rw [if_neg hscript] at h
      split
      next hlink => exact ⟨_, rfl⟩
      next hlink =>
        rw [if_neg hlink] at h
        obtain ⟨q, hq⟩ := cloneChildren_noFetch_ok env b children h
        rw [hq]
        exact ⟨_, rfl⟩

/-- A node list that needs no asset fetch always clones successfully. -/
theorem cloneChildren_noFetch_ok (env : String → Option String) (b : BaseUrl) :
    ∀ ns : List HNode, childrenNeedFetch ns = false →
      ∃ q, cloneChildren env b ns = .ok q
  | [], _ => ⟨([], []), rfl⟩
  | n :: rest, h => by
    simp only [childrenNeedFetch, Bool.or_eq_false_iff] at h
    obtain ⟨q1, hq1⟩ := clone_noFetch_ok env b n h.1
    obtain ⟨q2, hq2⟩ := cloneChildren_noFetch_ok env b rest h.2
    rw [cloneChildren, hq1, hq2]
    exact ⟨_, rfl⟩

end

/-- When no remaining node needs a fetch and the ticket is current, the
clone loop runs to the end synchronously and emits exactly the loaded
event, leaving ticket, tasks and unmounted unchanged. -/
theorem runNodes_complete (env : Env) (t : TaskCore) :
    ∀ (remaining : List HNode) (c : Comp) (bucket : List ScriptUnit),
      c.ticket = t.tkt →
      (∀ n ∈ remaining, nodeNeedsAssetFetch n = false) →
      (runNodes env t c remaining bucket).events = c.events ++ [.loaded (payloadBase t)] ∧
      (runNodes env t c remaining bucket).ticket = c.ticket ∧
      (runNodes env t c remaining bucket).tasks = c.tasks ∧
      (runNodes env t c remaining bucket).unmounted = c.unmounted := by
  intro remaining
  induction remaining with
  | nil =>
    intro c bucket htk _
    rw [runNodes]
    rw [if_neg (by simp [htk])]
    exact ⟨rfl, rfl, rfl, rfl⟩
  | cons node rest ih =>
    intro c bucket htk hnf
    rw [runNodes]
    rw [if_neg (by simp [htk])]
    rw [if_neg (by simp [hnf node (List.mem_cons_self node rest)])]
    obtain ⟨p, hp⟩ := clone_noFetch_ok env.fetchAsset (entryBaseUrl t.entry) node
      (hnf node (List.mem_cons_self node rest))
    rw [hp]
    exact ih (appendChildOpt c p.1) (bucket ++ p.2) htk
      (fun n hn => hnf n (List.mem_cons_of_mem node hn))

/-- No machine step ever decreases the ticket. -/
theorem step_ticket_mono (env : Env) (c : Comp) (cmd : Cmd) :
    c.ticket ≤ (step env c cmd).ticket := by
  cases cmd with
  | observe slug entry =>
    simp only [step, stepObserve]
    split
    next => exact Nat.le_refl _
    next =>
      split
      next => exact Nat.le_succ _
      next =>
        split
        next => exact Nat.le_succ _
        next =>
          cases hac : c.activeCtrl <;> simp only [hac] <;> exact Nat.le_succ _
  | resumeEntry tkt res =>
    simp only [step, stepResumeEntry]
    split
    next => exact Nat.le_refl _
    next task hfind =>
      have key : ∀ pc : TaskPC, c.ticket ≤ (match pc with
          | TaskPC.awaitEntry =>
            if (removeTask c tkt).abortedCtrls.contains task.core.ctrl then removeTask c tkt
            else
              match res with
              | FetchRes.ok html => injectEntry env (removeTask c tkt) task.core html
              | FetchRes.httpErr s =>
                loadCatch (removeTask c tkt) task.core
                  ("Unable to load project asset (" ++ toString s ++ ")")
          | x => c).ticket := by
        intro pc
        cases pc with
        | awaitClone node rest bucket => exact Nat.le_refl _
        | awaitEntry =>
          simp only []
          by_cases hab : (removeTask c tkt).abortedCtrls.contains task.core.ctrl = true
          · rw [if_pos hab]
            exact Nat.le_refl _
          · rw [if_neg hab]
            cases res with
            | ok html =>
              simp only [injectEntry]
              split
              next => exact Nat.le_refl _
              next =>
                rw [(runNodes_fields env task.core (env.parseHtml html) _ []).1]
                exact Nat.le_refl _
            | httpErr s =>
              rw [(loadCatch_fields (removeTask c tkt) task.core _).1]
              exact Nat.le_refl _
      exact key task.pc
  | resumeClone tkt =>
    simp only [step, stepResumeClone]
    split
    next => exact Nat.le_refl _
    next task hfind =>
      have key : ∀ pc : TaskPC, c.ticket ≤ (match pc with
          | TaskPC.awaitClone node rest bucket =>
            match cloneNodeTree env.fetchAsset (entryBaseUrl task.core.entry) node with
            | Except.error msg => loadCatch (removeTask c tkt) task.core msg
            | Except.ok p =>
              runNodes env task.core (appendChildOpt (removeTask c tkt) p.1) rest
                (bucket ++ p.2)
          | x => c).ticket := by
        intro pc
        cases pc with
        | awaitEntry => exact Nat.le_refl _
        | awaitClone node rest bucket =>
          simp only []
          have key2 : ∀ r : Except String (Option CNode × List ScriptUnit),
              c.ticket ≤ (match r with
                | Except.error msg => loadCatch (removeTask c tkt) task.core msg
                | Except.ok p =>
                  runNodes env task.core (appendChildOpt (removeTask c tkt) p.1) rest
                    (bucket ++ p.2)).ticket := by
            intro r
            cases r with
            | error msg =>
              simp only []
              rw [(loadCatch_fields (removeTask c tkt) task.core msg).1]
              exact Nat.le_refl _
            | ok p =>
              simp only []
              rw [(runNodes_fields env task.core rest _ (bucket ++ p.2)).1]
              exact Nat.le_refl _
          exact key2 (cloneNodeTree env.fetchAsset (entryBaseUrl task.core.entry) node)
      exact key task.pc
  | fireTimer h =>
    simp only [step, stepFireTimer]
    split
    next => exact Nat.le_refl _
    next t hfind =>
      split
      next => exact Nat.le_refl _
      next => exact Nat.le_refl _
  | fireFrame h =>
    simp only [step, stepFireFrame]
    split
    next => exact Nat.le_refl _
    next f hfind =>
      split
      next => exact Nat.le_refl _
      next => exact Nat.le_refl _
  | fireListener tg ev =>
    simp only [step, stepFireListener]
    rw [(foldl_runCallback_fields env _ c).2.1]
  | unmount =>
    simp only [step, stepUnmount]
    split
    next => exact Nat.le_refl _
    next =>
      cases hac : c.activeCtrl <;> simp only [hac] <;> exact Nat.le_succ _

/-- The watch handler on a loadable descriptor: one fresh ticket, the old
controller aborted, a fresh controller, one loading event, one new fetch
and one new task. -/
theorem stepObserve_load (c : Comp) (slug entry : String)
    (hu : c.unmounted = false) (hs : (slug == "") = false)
    (he : (entry == "") = false) :
    stepObserve c slug entry =
      { c with
        ticket := c.ticket + 1,
        abortedCtrls := c.abortedCtrls ++
          (match c.activeCtrl with | some a => [a] | none => []),
        activeCtrl := some c.nextCtrl,
        nextCtrl := c.nextCtrl + 1,
        fetchCount := c.fetchCount + 1,
        events := c.events ++ [.loading ⟨slug, entry, c.ticket + 1, none, false⟩],
        tasks := c.tasks ++ [⟨⟨c.ticket + 1, slug, entry, c.nextCtrl⟩, .awaitEntry⟩] } := by
  simp only [stepObserve, hu, Bool.false_eq_true, if_false, hs, he]
  cases hac : c.activeCtrl <;> simp [hac, emitEv]

/-- Resolving the entry fetch of the current, unaborted load whose
document needs no asset fetch completes the whole load synchronously:
exactly one loaded event is emitted and the load's task is retired. -/
theorem stepResumeEntry_fresh (env : Env) (c : Comp) (T : Nat) (html : String)
    (task : Task)
    (hfind : c.tasks.find? (fun t => t.core.tkt == T) = some task)
    (hpc : task.pc = .awaitEntry)
    (hab : (removeTask c T).abortedCtrls.contains task.core.ctrl = false)
    (hu : c.unmounted = false)
    (htk : c.ticket = task.core.tkt)
    (hnf : ∀ n ∈ env.parseHtml html, nodeNeedsAssetFetch n = false) :
    (stepResumeEntry env c T (.ok html)).events =
      c.events ++ [.loaded (payloadBase task.core)] ∧
    (stepResumeEntry env c T (.ok html)).ticket = c.ticket ∧
    (stepResumeEntry env c T (.ok html)).tasks = (removeTask c T).tasks ∧
    (stepResumeEntry env c T (.ok html)).unmounted = c.unmounted := by
  have hcc := runNodes_complete env task.core (env.parseHtml html)
    { removeTask c T with
        world := ((removeTask c T).shadow.getD ⟨[], []⟩).ledger.foldl applyRelease
          (removeTask c T).world,
        shadow := some ⟨[], []⟩ } [] htk hnf
  simp only [stepResumeEntry]
  rw [hfind]
  simp only []
  rw [hpc]
  simp only []
  rw [if_neg (by rw [hab]; simp)]
  simp only [injectEntry]
  rw [if_neg (by simp [removeTask, hu])]
  obtain ⟨e1, e2, e3, e4⟩ := hcc
  exact ⟨by rw [e1]; rfl, by rw [e2]; rfl, by rw [e3], by rw [e4]; rfl⟩

/-- Claim C1 (amended): tickets are minted strictly increasing, one per
observed descriptor change; no step decreases the ticket; the tickets of
the settled events are non-decreasing in emission order; and after the
final descriptor change of any burst, resolving its entry fetch emits
exactly one settled event — the loaded event carrying the final ticket —
while every further stale resolution of the settlement phase emits no
event at all (the original claim's stronger clause, that a stale
completion also never mutates the root, is what the counterexample
refutes). -/
theorem ticket_lifecycle :
    (∀ (c : Comp) (slug entry : String), c.unmounted = false →
      (stepObserve c slug entry).ticket = c.ticket + 1) ∧
    (∀ (env : Env) (c : Comp) (cmd : Cmd), c.ticket ≤ (step env c cmd).ticket) ∧
    (∀ (env : Env) (cmds : List Cmd),
      List.Chain' (fun p q => p.ticket ≤ q.ticket)
        (settledPayloads (runTrace env cmds).events)) ∧
    (∀ (env : Env) (base : List Cmd) (slug entry html : String) (rest : List Cmd),
      slug ≠ "" → entry ≠ "" →
      (runTrace env base).unmounted = false →
      (∀ n ∈ env.parseHtml html, nodeNeedsAssetFetch n = false) →
      (∀ cmd ∈ rest, restCmd cmd = true) →
      settledPayloads (runTrace env (base ++
          Cmd.observe slug entry ::
          Cmd.resumeEntry ((runTrace env base).ticket + 1) (FetchRes.ok html) ::
          rest)).events =
        settledPayloads (runTrace env base).events ++
          [⟨slug, entry, (runTrace env base).ticket + 1, none, false⟩] ∧
      (∀ p ∈ settledPayloads (runTrace env base).events,
        p.ticket < (runTrace env base).ticket + 1)) := by
  refine ⟨?_, step_ticket_mono, fun env cmds => (runTrace_inv env cmds).chain, ?_⟩
  · intro c slug entry hu
    simp only [stepObserve, hu, Bool.false_eq_true, if_false]
    split
    next => rfl
    next =>
      split
      next => rfl
      next => cases hac : c.activeCtrl <;> simp only [hac] <;> rfl
  · intro env base slug entry html rest hs he hu hnf hrest
    have hinv := runTrace_inv env base
    have hsB : (slug == "") = false := by simp [hs]
    have heB : (entry == "") = false := by simp [he]
    have h1 : step env (runTrace env base) (.observe slug entry) =
        { runTrace env base with
          ticket := (runTrace env base).ticket + 1,
          abortedCtrls := (runTrace env base).abortedCtrls ++
            (match (runTrace env base).activeCtrl with | some a => [a] | none => []),
          activeCtrl := some (runTrace env base).nextCtrl,
          nextCtrl := (runTrace env base).nextCtrl + 1,
          fetchCount := (runTrace env base).fetchCount + 1,
          events := (runTrace env base).events ++
            [.loading ⟨slug, entry, (runTrace env base).ticket + 1, none, false⟩],
          tasks := (runTrace env base).tasks ++
            [⟨⟨(runTrace env base).ticket + 1, slug, entry,
              (runTrace env base).nextCtrl⟩, .awaitEntry⟩] } :=
      stepObserve_load (runTrace env base) slug entry hu hsB heB
    have hfind : ((runTrace env base).tasks ++
        [(⟨⟨(runTrace env base).ticket + 1, slug, entry,
          (runTrace env base).nextCtrl⟩, .awaitEntry⟩ : Task)]).find?
          (fun t => t.core.tkt == (runTrace env base).ticket + 1) =
        some ⟨⟨(runTrace env base).ticket + 1, slug, entry,
          (runTrace env base).nextCtrl⟩, .awaitEntry⟩ := by
      rw [find?_append_right]
      · simp [List.find?]
      · intro x hx
        have hle := hinv.tasksLe x hx
        simp only [beq_eq_false_iff_ne, ne_eq]
        omega
    have habort : (((runTrace env base).abortedCtrls ++
        (match (runTrace env base).activeCtrl with
          | some a => [a] | none => [])).contains (runTrace env base).nextCtrl) = false := by
      apply contains_false_of_lt
      intro x hx
      rcases List.mem_append.mp hx with hxa | hxa
      · exact hinv.abortedLt x hxa
      · cases hac : (runTrace env base).activeCtrl with
        | none => rw [hac] at hxa; cases hxa
        | some a =>
          rw [hac] at hxa
          rw [List.mem_singleton] at hxa
          subst hxa
          exact hinv.activeLt x hac
    obtain ⟨e1, e2, e3, e4⟩ := stepResumeEntry_fresh env
      ({ runTrace env base with
          ticket := (runTrace env base).ticket + 1,
          abortedCtrls := (runTrace env base).abortedCtrls ++
            (match (runTrace env base).activeCtrl with | some a => [a] | none => []),
          activeCtrl := some (runTrace env base).nextCtrl,
          nextCtrl := (runTrace env base).nextCtrl + 1,
          fetchCount := (runTrace env base).fetchCount + 1,
          events := (runTrace env base).events ++
            [.loading ⟨slug, entry, (runTrace env base).ticket + 1, none, false⟩],
          tasks := (runTrace env base).tasks ++
            [⟨⟨(runTrace env base).ticket + 1, slug, entry,
              (runTrace env base).nextCtrl⟩, .awaitEntry⟩] })
      ((runTrace env base).ticket + 1) html
      ⟨⟨(runTrace env base).ticket + 1, slug, entry,
        (runTrace env base).nextCtrl⟩, .awaitEntry⟩
      hfind rfl habort hu rfl hnf
    have hrun : runTrace env (base ++
        Cmd.observe slug entry ::
        Cmd.resumeEntry ((runTrace env base).ticket + 1) (FetchRes.ok html) :: rest) =
        rest.foldl (step env)
          (step env (step env (runTrace env base) (.observe slug entry))
            (.resumeEntry ((runTrace env base).ticket + 1) (FetchRes.ok html))) := by
      rw [runTrace, List.foldl_append, List.foldl_cons, List.foldl_cons]
      rfl
    have hstale : ∀ t ∈ (step env (step env (runTrace env base) (.observe slug entry))
        (.resumeEntry ((runTrace env base).ticket + 1) (FetchRes.ok html))).tasks,
        t.core.tkt < (step env (step env (runTrace env base) (.observe slug entry))
          (.resumeEntry ((runTrace env base).ticket + 1) (FetchRes.ok html))).ticket := by
      intro t ht
      rw [h1] at ht ⊢
      rw [show (step env _ (Cmd.resumeEntry ((runTrace env base).ticket + 1)
        (FetchRes.ok html))) = stepResumeEntry env _ ((runTrace env base).ticket + 1)
        (FetchRes.ok html) from rfl] at ht ⊢
      rw [e3] at ht
      rw [e2]
      obtain ⟨hmem, hpred⟩ := List.mem_filter.mp ht
      rcases List.mem_append.mp hmem with hxa | hxa
      · have := hinv.tasksLe t hxa
        show t.core.tkt < (runTrace env base).ticket + 1
        omega
      · rw [List.mem_singleton] at hxa
        subst hxa
        simp at hpred
    rw [hrun]
    obtain ⟨fre, _⟩ := foldl_rest env rest _ hrest (by
      intro t ht
      have := hstale t ht
      exact this)
    constructor
    · rw [fre]
      rw [h1]
      rw [show (step env _ (Cmd.resumeEntry ((runTrace env base).ticket + 1)
        (FetchRes.ok html))) = stepResumeEntry env _ ((runTrace env base).ticket + 1)
        (FetchRes.ok html) from rfl]
      rw [e1]
      simp [settledPayloads_append, settledPayloads, payloadBase]
    · intro p hp
      have := hinv.settledLe p hp
      omega

/-- Witness for script_type_filtering at a concrete disallowed script. -/
theorem script_type_filtering_witness :
    cloneNodeTree (fun _ => none) demoBase
        (.elem "script" [("type", "text/x-not-js")] [.text "ignored"]) = .ok (none, []) ∧
    cloneChildren (fun _ => none) demoBase
        [.elem "script" [("type", "text/x-not-js")] [.text "ignored"],
         .text "kept"] =
      cloneChildren (fun _ => none) demoBase [.text "kept"] := by
  have h1 := script_type_filtering.1 (fun _ => none) demoBase "script"
    [("type", "text/x-not-js")] [.text "ignored"] (by decide) (by decide) (by decide)
  exact ⟨h1, script_type_filtering.2.2 (fun _ => none) demoBase _ _ h1⟩

def c1cexenv : Env :=
  ⟨fun html => if html == "H1" then [.elem "div" [] [.elem "script" [("src", "s.js")] []]]
    else [.text "B"],
   fun u => if u == "/s.js" then some "code" else none,
   fun _ => [], fun _ => []⟩

def c1cextrace : List Cmd :=
  [.observe "a" "/e1.html", .resumeEntry 1 (.ok "H1"),
   .observe "b" "/e2.html", .resumeEntry 2 (.ok "H2")]

/-- Counterexample to the unamended C1: after project a's entry resolves,
its clone suspends on the script-src fetch; project b then observes and
fully loads (ticket 2, one shadow child). The stale clone of ticket 1 is
still pending, and when its fetch resolves the step appends a second
child to the live root for project b — a superseded async step mutating
the root — while, as the guard does cover events, no event is emitted. -/
theorem stale_step_mutates_root_cex :
    (runTrace c1cexenv c1cextrace).ticket = 2 ∧
    (runTrace c1cexenv c1cextrace).tasks.map (fun t => t.core.tkt) = [1] ∧
    (shadowChildren (runTrace c1cexenv c1cextrace)).length = 1 ∧
    (shadowChildren (runTrace c1cexenv (c1cextrace ++ [.resumeClone 1]))).length = 2 ∧
    (runTrace c1cexenv (c1cextrace ++ [.resumeClone 1])).events =
      (runTrace c1cexenv c1cextrace).events := by
  refine ⟨rfl, rfl, rfl, rfl, rfl⟩

def c1wenv : Env :=
  ⟨fun h => if h == "H" then [.text "hi"] else [.text "x"],
   fun _ => none, fun _ => [], fun _ => []⟩

/-- Witness for ticket_lifecycle at a concrete burst: with an older load
of slug b0 still in flight, observing slug a mints ticket 2, its entry
resolution settles exactly one loaded event at ticket 2, and the stale
resumption of ticket 1 afterwards settles nothing. -/
theorem ticket_lifecycle_witness :
    (stepObserve initComp "a" "/e.html").ticket = 1 ∧
    settledPayloads (runTrace c1wenv ([Cmd.observe "b0" "/old.html"] ++
        Cmd.observe "a" "/e.html" ::
        Cmd.resumeEntry ((runTrace c1wenv [Cmd.observe "b0" "/old.html"]).ticket + 1)
          (FetchRes.ok "H") ::
        [Cmd.resumeEntry 1 (FetchRes.ok "HOLD")])).events =
      settledPayloads (runTrace c1wenv [Cmd.observe "b0" "/old.html"]).events ++
        [⟨"a", "/e.html", (runTrace c1wenv [Cmd.observe "b0" "/old.html"]).ticket + 1,
          none, false⟩] := by
  constructor
  · exact ticket_lifecycle.1 initComp "a" "/e.html" rfl
  · exact (ticket_lifecycle.2.2.2 c1wenv [Cmd.observe "b0" "/old.html"] "a" "/e.html" "H"
      [Cmd.resumeEntry 1 (FetchRes.ok "HOLD")]
      (by decide) (by decide) rfl
      (by intro n hn; simp [c1wenv] at hn; subst hn; rfl)
      (by intro cmd hc; simp at hc; subst hc; rfl)).1

end Sandbox
